import Mathlib

/-!
Shallow embedding of the BigXtractor BIG-archive codec
(src/src/reader.cpp, src/src/writer.cpp, src/include/bigx/endian.hpp,
src/include/bigx/types.hpp).

Bytes are modelled as `Nat` values (< 256 for genuine file bytes); byte
buffers and C++ strings as `List Nat`.  Multi-byte integer fields are
modelled at the level of their big-endian byte encoding, which is the net
effect of the source's `htobe32` + `memcpy` (write side) and `memcpy` +
`betoh32` (read side) on either host.  `uint32_t` arithmetic is modelled
with explicit `% 2^32`.  The filesystem seen by the Writer is an explicit
map from source paths to file contents.
-/

set_option maxRecDepth 10000

namespace big

-- Equality of Except results is decidable componentwise; used to
-- evaluate the parser and writer on concrete archives.
deriving instance DecidableEq for Except

/-- Embeds `std::tolower` on an `unsigned char` in the default C locale:
ASCII uppercase letters (65..90) are shifted to lowercase, everything else
is unchanged. -/
def toLowerByte (c : Nat) : Nat :=
  if 65 ≤ c ∧ c ≤ 90 then c + 32 else c

/-- Embeds `big::Reader::normalizePath` / `big::Writer::normalizePath`
(identical bodies in reader.cpp and writer.cpp): replace each backslash
(92) with a forward slash (47) and lowercase every other character. -/
def normalizePath (p : List Nat) : List Nat :=
  p.map (fun c => if c = 92 then 47 else toLowerByte c)

/-- Embeds `big::Writer::normalizeSlashes` (writer.cpp): replace
backslashes with forward slashes, preserving case. -/
def normalizeSlashes (p : List Nat) : List Nat :=
  p.map (fun c => if c = 92 then 47 else c)

/-- Embeds `bigx::FileEntry` (types.hpp).  `offset` and `size` are
`uint32_t` fields; values stored in them are reduced `% 2^32` at the
assignments that the source performs on `uint32_t`. -/
structure FileEntry where
  path : List Nat
  lowercasePath : List Nat
  offset : Nat
  size : Nat
deriving Repr, DecidableEq

/-- Size of `bigx::ArchiveHeader` (types.hpp): 16 bytes. -/
def headerSize : Nat := 16

/-- The 4 magic bytes `"BIGF"`. -/
def magicBytes : List Nat := [66, 73, 71, 70]

/-- The outcomes of `big::Reader::parse` failing, one constructor per
early-return error branch in reader.cpp. -/
inductive ParseError where
  | tooSmall (size : Nat)
  | badMagic
  | invalidFileCount (count : Nat)
  | truncatedEntry (index : Nat)
  | outOfBounds (index offset size fileSize : Nat)
  | unterminatedPath (index : Nat)
  | duplicatePath (path : List Nat)
deriving Repr, DecidableEq

/-- Reading a big-endian `uint32_t` from four buffer bytes at `pos`
(the source's `memcpy` + `betoh32`).  Out-of-range reads default to 0;
the parser only reads positions it has bounds-checked. -/
def readBE32 (d : List Nat) (pos : Nat) : Nat :=
  d.getD pos 0 * 2 ^ 24 + d.getD (pos + 1) 0 * 2 ^ 16 +
    d.getD (pos + 2) 0 * 2 ^ 8 + d.getD (pos + 3) 0

/-- The four big-endian bytes of a value stored through
`htobe32(static_cast<uint32_t>(v))` + `memcpy`. -/
def be32 (v : Nat) : List Nat :=
  [v / 2 ^ 24 % 2 ^ 8, v / 2 ^ 16 % 2 ^ 8, v / 2 ^ 8 % 2 ^ 8, v % 2 ^ 8]

/-- Embeds the entry loop of `big::Reader::parse` (reader.cpp lines
66-119): for each of `count` entries, bounds-check the 8-byte
offset/size slot, read both fields, apply the `uint32_t` bounds check
(the source adds two `uint32_t`s, hence the `% 2 ^ 32`), scan for the
path's NUL terminator, and build a `FileEntry` whose two path fields
both hold the normalized (lowercased) path. -/
def parseEntries (d : List Nat) (pos i count : Nat) : Except ParseError (List FileEntry) :=
  match count with
  | 0 => .ok []
  | n + 1 =>
    if pos + 8 > d.length then .error (.truncatedEntry i)
    else
      let offset := readBE32 d pos
      let size := readBE32 d (pos + 4)
      if (offset + size) % 2 ^ 32 > d.length then
        .error (.outOfBounds i offset size d.length)
      else
        let path := (d.drop (pos + 8)).takeWhile (fun c => c ≠ 0)
        if pos + 8 + path.length ≥ d.length then .error (.unterminatedPath i)
        else
          match parseEntries d (pos + 8 + path.length + 1) (i + 1) n with
          | .error e => .error e
          | .ok entries =>
            .ok ({ path := normalizePath path, lowercasePath := normalizePath path,
                   offset := offset, size := size } :: entries)

/-- Embeds the lookup-table loop of `big::Reader::parse` (reader.cpp
lines 121-135): insert each entry's lowercase path, failing on the first
duplicate key.  The map is modelled as an association list in insertion
order. -/
def buildLookupAux (es : List FileEntry) (i : Nat) (acc : List (List Nat × Nat)) :
    Except ParseError (List (List Nat × Nat)) :=
  match es with
  | [] => .ok acc
  | e :: rest =>
    if acc.any (fun kv => kv.1 = e.lowercasePath) then .error (.duplicatePath e.path)
    else buildLookupAux rest (i + 1) (acc ++ [(e.lowercasePath, i)])

/-- The state of a successfully parsed `big::Reader`: the mapped bytes,
the directory `files_`, and the lookup map `lookup_`. -/
structure Reader where
  data : List Nat
  files : List FileEntry
  lookup : List (List Nat × Nat)
deriving Repr, DecidableEq

/-- Embeds `big::Reader::parse` (reader.cpp lines 27-138) applied to the
mapped file bytes: header checks, entry loop, lookup construction. -/
def Reader.parseBytes (d : List Nat) : Except ParseError Reader :=
  if d.length < headerSize then .error (.tooSmall d.length)
  else if d.take 4 ≠ magicBytes then .error .badMagic
  else
    let fileCount := readBE32 d 8
    if fileCount > 1000000 then .error (.invalidFileCount fileCount)
    else
      match parseEntries d headerSize 0 fileCount with
      | .error e => .error e
      | .ok entries =>
        match buildLookupAux entries 0 [] with
        | .error e => .error e
        | .ok lk => .ok { data := d, files := entries, lookup := lk }

/-- Embeds `big::Reader::fileCount`. -/
def Reader.fileCount (r : Reader) : Nat := r.files.length

/-- Embeds `big::Reader::findFile` (reader.cpp lines 140-147): normalize
the query, look it up, and return the indexed directory entry. -/
def Reader.findFile (r : Reader) (p : List Nat) : Option FileEntry :=
  match r.lookup.find? (fun kv => kv.1 = normalizePath p) with
  | none => none
  | some kv => r.files.get? kv.2

/-- Embeds `big::Reader::getFileView` (reader.cpp lines 197-206): the
defensive `uint32_t` bounds re-check, then the slice
`[offset, offset+size)` of the mapped bytes. -/
def Reader.getFileView (r : Reader) (e : FileEntry) : List Nat :=
  if (e.offset + e.size) % 2 ^ 32 > r.data.length then []
  else (r.data.drop e.offset).take e.size

/-- Embeds `big::Reader::extractToMemory` (reader.cpp lines 182-195):
fails when the view is empty, otherwise copies it to an owned buffer. -/
def Reader.extractToMemory (r : Reader) (e : FileEntry) : Option (List Nat) :=
  let v := r.getFileView e
  if v.isEmpty then none else some v

/-- Failure modes of `big::Reader::extract` (reader.cpp lines 149-180). -/
inductive ExtractError where
  | invalidBounds
  | createFileFailed
  | writeFailed
deriving Repr, DecidableEq

/-- Embeds `big::Reader::extract` (reader.cpp lines 149-180).  The
filesystem steps are abstracted by `fsOk`; the empty-view check precedes
every filesystem operation in the source. -/
def Reader.extract (r : Reader) (e : FileEntry) (fsOk : Bool) : Except ExtractError Unit :=
  if (r.getFileView e).isEmpty then .error .invalidBounds
  else if fsOk then .ok () else .error .createFileFailed

/-- Embeds `big::Writer::PendingFile` (writer.hpp). -/
structure PendingFile where
  archivePath : List Nat
  sourcePath : List Nat
  data : List Nat
  fromDisk : Bool
deriving Repr, DecidableEq

/-- The writer's state: `pendingFiles_` and the post-write `entries_`. -/
structure Writer where
  pendingFiles : List PendingFile
  entries : List FileEntry
deriving Repr, DecidableEq

/-- Failure modes of the `big::Writer` operations (writer.cpp). -/
inductive WriteError where
  | sourceNotFound
  | duplicatePath
  | statFailed
  | createOutputFailed
deriving Repr, DecidableEq

/-- The filesystem visible to the writer: a map from source path to file
contents (`none` = the path does not exist).  It is held constant over a
`write` call, so the stat pass and the read pass agree. -/
def Disk : Type := List Nat → Option (List Nat)

/-- Embeds the duplicate-path scan shared by both `addFile` overloads
(writer.cpp lines 27-36 and 53-62). -/
def Writer.hasDuplicate (w : Writer) (archivePath : List Nat) : Bool :=
  w.pendingFiles.any (fun q => normalizePath q.archivePath = normalizePath archivePath)

/-- Embeds the from-disk `big::Writer::addFile` (writer.cpp lines 13-46):
existence check, duplicate check, then append a pending "from disk"
entry with the slash-normalized path.  The returned `Writer` is the
post-call state of the receiver. -/
def Writer.addFileDisk (w : Writer) (disk : Disk) (sourcePath archivePath : List Nat) :
    Option WriteError × Writer :=
  if (disk sourcePath).isNone then (some .sourceNotFound, w)
  else if w.hasDuplicate archivePath then (some .duplicatePath, w)
  else
    (none, { w with pendingFiles := w.pendingFiles ++
        [{ archivePath := normalizeSlashes archivePath, sourcePath := sourcePath,
           data := [], fromDisk := true }] })

/-- Embeds the from-memory `big::Writer::addFile` (writer.cpp lines
48-72): duplicate check, then append a pending "from memory" entry
holding an owned copy of the bytes. -/
def Writer.addFileMem (w : Writer) (data : List Nat) (archivePath : List Nat) :
    Option WriteError × Writer :=
  if w.hasDuplicate archivePath then (some .duplicatePath, w)
  else
    (none, { w with pendingFiles := w.pendingFiles ++
        [{ archivePath := normalizeSlashes archivePath, sourcePath := [],
           data := data, fromDisk := false }] })

/-- Embeds `big::Writer::fileCount`. -/
def Writer.fileCount (w : Writer) : Nat := w.pendingFiles.length

/-- Embeds `big::Writer::clear` (writer.cpp lines 247-250). -/
def Writer.clear (_w : Writer) : Writer :=
  { pendingFiles := [], entries := [] }

/-- Resolves each pending entry's bytes against the disk: the stat/read
of a "from disk" entry (both passes see the same constant disk), or the
held buffer of a "from memory" entry.  `none` when some source file is
missing (the source's `StatFailed`). -/
def resolveContents (disk : Disk) : List PendingFile → Option (List (List Nat))
  | [] => some []
  | p :: ps =>
    match (if p.fromDisk then disk p.sourcePath else some p.data), resolveContents disk ps with
    | some c, some cs => some (c :: cs)
    | _, _ => none

/-- Directory bytes contributed by one pending entry: offset (4) +
size (4) + path + NUL (writer.cpp line 104). -/
def dirEntrySize (p : PendingFile) : Nat := 8 + p.archivePath.length + 1

/-- The directory section the writer emits (placeholders back-filled, so
the net bytes are offset, size, path, NUL per entry in order), with
`pos` the running data cursor that starts right after the directory. -/
def dirBytes : List (PendingFile × List Nat) → Nat → List Nat
  | [], _ => []
  | (p, c) :: rest, pos =>
    be32 pos ++ be32 c.length ++ p.archivePath ++ [0] ++ dirBytes rest (pos + c.length)

/-- The concatenated data section. -/
def dataBytes : List (List Nat) → List Nat
  | [] => []
  | c :: cs => c ++ dataBytes cs

/-- The `entries_` snapshot the writer records during step 5 of `write`:
display path as stored in the pending entry, lowercase path re-derived,
offset and size as truncated into the `uint32_t` fields. -/
def entriesOf : List (PendingFile × List Nat) → Nat → List FileEntry
  | [], _ => []
  | (p, c) :: rest, pos =>
    { path := p.archivePath, lowercasePath := normalizePath p.archivePath,
      offset := pos % 2 ^ 32, size := c.length % 2 ^ 32 } :: entriesOf rest (pos + c.length)

/-- The 16-byte header: magic, big-endian total size, big-endian file
count, zero padding (writer.cpp lines 134-154). -/
def headerBytes (total count : Nat) : List Nat :=
  magicBytes ++ be32 total ++ be32 count ++ [0, 0, 0, 0]

/-- The 16 bytes that the empty-pending branch of `write` emits directly
(writer.cpp lines 76-96): magic, big-endian 16, zero count, zero pad. -/
def emptyArchiveBytes : List Nat :=
  magicBytes ++ be32 headerSize ++ [0, 0, 0, 0] ++ [0, 0, 0, 0]

/-- Embeds `big::Writer::write` (writer.cpp lines 74-245) with the bytes
it deposits in the destination file made explicit.  The empty-pending
branch writes the minimal header without a mapping; otherwise the size
pass stats every source, and the emit pass lays out header, directory
and data while rebuilding `entries_`.  `pendingFiles_` is read but never
written, mirroring the source. -/
def Writer.write (w : Writer) (disk : Disk) : Except WriteError (List Nat) × Writer :=
  if w.pendingFiles.isEmpty then
    (.ok emptyArchiveBytes, { w with entries := [] })
  else
    match resolveContents disk w.pendingFiles with
    | none => (.error .statFailed, w)
    | some cs =>
      let dirSize := (w.pendingFiles.map dirEntrySize).sum
      let dataSize := (cs.map List.length).sum
      let total := headerSize + dirSize + dataSize
      let items := w.pendingFiles.zip cs
      (.ok (headerBytes total w.pendingFiles.length ++
              dirBytes items (headerSize + dirSize) ++ dataBytes cs),
       { w with entries := entriesOf items (headerSize + dirSize) })

/-- Adding a list of (archivePath, bytes) pairs with the from-memory
`addFile`, stopping at the first failure. -/
def Writer.addAllMem (w : Writer) : List (List Nat × List Nat) → Option WriteError × Writer
  | [] => (none, w)
  | (p, b) :: rest =>
    match w.addFileMem b p with
    | (some e, w₁) => (some e, w₁)
    | (none, w₁) => w₁.addAllMem rest

/-! ### Helper lemmas about the parser -/

lemma getD_lt_256 (d : List Nat) (pos : Nat) (hb : ∀ b ∈ d, b < 256) :
    d.getD pos 0 < 256 := by
  rw [List.getD_eq_getElem?_getD]
  rcases h : d[pos]? with _ | x
  · simp
  · have hm : x ∈ d := List.getElem?_mem h
    simpa using hb x hm

lemma readBE32_lt (d : List Nat) (pos : Nat) (hb : ∀ b ∈ d, b < 256) :
    readBE32 d pos < 2 ^ 32 := by
  have h0 := getD_lt_256 d pos hb
  have h1 := getD_lt_256 d (pos + 1) hb
  have h2 := getD_lt_256 d (pos + 2) hb
  have h3 := getD_lt_256 d (pos + 3) hb
  unfold readBE32
  omega

lemma parseEntries_mem_bounds (d : List Nat) (hb : ∀ b ∈ d, b < 256) :
    ∀ (count pos i : Nat) (es : List FileEntry),
      parseEntries d pos i count = .ok es →
      ∀ e ∈ es, e.offset < 2 ^ 32 ∧ e.size < 2 ^ 32 ∧ (e.offset + e.size) % 2 ^ 32 ≤ d.length := by
  intro count
  induction count with
  | zero =>
    intro pos i es h e he
    simp only [parseEntries] at h
    cases h
    simp at he
  | succ n ih =>
    intro pos i es h e he
    simp only [parseEntries] at h
    split at h
    · cases h
    · split at h
      · cases h
      · split at h
        · cases h
        · rcases hrec : parseEntries d (pos + 8 +
              ((d.drop (pos + 8)).takeWhile (fun c => c ≠ 0)).length + 1) (i + 1) n with e' | es'
          · rw [hrec] at h; cases h
          · rw [hrec] at h
            simp only [Except.ok.injEq] at h
            subst h
            rw [List.mem_cons] at he
            rcases he with he | he
            · subst he
              dsimp only
              refine ⟨readBE32_lt d pos hb, readBE32_lt d (pos + 4) hb, by omega⟩
            · exact ih _ _ _ hrec e he

lemma parseBytes_ok_inv (d : List Nat) (r : Reader) (h : Reader.parseBytes d = .ok r) :
    r.data = d ∧ parseEntries d headerSize 0 (readBE32 d 8) = .ok r.files ∧
      buildLookupAux r.files 0 [] = .ok r.lookup := by
  simp only [Reader.parseBytes] at h
  split at h
  · cases h
  · split at h
    · cases h
    · split at h
      · cases h
      · split at h
        · cases h
        · next es hpe =>
          split at h
          · cases h
          · next lk hlk =>
            cases h
            exact ⟨rfl, hpe, hlk⟩

/-! ### C2 -/

/-- The archive for the C2 counterexample: one directory entry with
offset `0xFFFFFFFF` and size 2 in a 26-byte file; the `uint32_t` sum
wraps to 1, so the parser accepts it. -/
def c2data : List Nat :=
  [66, 73, 71, 70, 0, 0, 0, 26, 0, 0, 0, 1, 0, 0, 0, 0,
   255, 255, 255, 255, 0, 0, 0, 2, 97, 0]

/-- The entry the parser builds from `c2data`. -/
def c2entry : FileEntry :=
  { path := [97], lowercasePath := [97], offset := 4294967295, size := 2 }

/-- The reader the parser builds from `c2data`. -/
def c2reader : Reader := { data := c2data, files := [c2entry], lookup := [([97], 0)] }

/-- C2 counterexample: `Reader.parseBytes` accepts an archive holding an
entry with `offset + size = 2^32 + 1 > 26` in exact integer arithmetic,
because the source adds two `uint32_t`s and the sum wraps to 1. -/
theorem c2_bounds_counterexample :
    Reader.parseBytes c2data = .ok c2reader ∧
    c2entry ∈ c2reader.files ∧
    c2data.length = 26 ∧
    c2entry.offset + c2entry.size = 4294967297 ∧
    ¬(c2entry.offset + c2entry.size ≤ c2data.length) := by
  refine ⟨by decide, by decide, by decide, by decide, by decide⟩

/-- C2 amended: for every archive of genuine bytes accepted by the
parser, every entry satisfies the bound `offset + size ≤ total length`
in `uint32_t` (wrap-around) arithmetic, i.e.
`(offset + size) % 2^32 ≤ length`; both fields are `uint32_t` values. -/
theorem c2_bounds_amended (d : List Nat) (r : Reader)
    (h : Reader.parseBytes d = .ok r) (hb : ∀ b ∈ d, b < 256) :
    ∀ e ∈ r.files, e.offset < 2 ^ 32 ∧ e.size < 2 ^ 32 ∧
      (e.offset + e.size) % 2 ^ 32 ≤ d.length := by
  obtain ⟨-, hpe, -⟩ := parseBytes_ok_inv d r h
  exact parseEntries_mem_bounds d hb _ _ _ _ hpe

/-- C2 amended, witnessed at the concrete archive `c2data`. -/
theorem c2_bounds_amended_witness :
    Reader.parseBytes c2data = .ok c2reader ∧ (∀ b ∈ c2data, b < 256) ∧
    (c2entry.offset < 2 ^ 32 ∧ c2entry.size < 2 ^ 32 ∧
      (c2entry.offset + c2entry.size) % 2 ^ 32 ≤ c2data.length) :=
  ⟨by decide, by decide,
    c2_bounds_amended c2data c2reader (by decide) (by decide) c2entry (by decide)⟩

/-! ### C9 -/

/-- C9: a `FileEntry` with `size == 0` always yields an empty view from
`getFileView`, so `extractToMemory` and `extract` both fail with the
invalid-bounds error, on any reader state. -/
theorem c9_zero_size_unextractable (r : Reader) (e : FileEntry) (h : e.size = 0) :
    r.getFileView e = [] ∧ r.extractToMemory e = none ∧
      ∀ fsOk, r.extract e fsOk = .error .invalidBounds := by
  have hv : r.getFileView e = [] := by
    unfold Reader.getFileView
    split
    · rfl
    · rw [h, List.take_zero]
  refine ⟨hv, ?_, ?_⟩
  · unfold Reader.extractToMemory
    rw [hv]
    rfl
  · intro fsOk
    unfold Reader.extract
    rw [hv]
    rfl

/-- A concrete archive holding one zero-length file `"a"`: exactly what
`Writer.write` emits for the pending pair `("a", [])`. -/
def c9data : List Nat :=
  [66, 73, 71, 70, 0, 0, 0, 26, 0, 0, 0, 1, 0, 0, 0, 0,
   0, 0, 0, 26, 0, 0, 0, 0, 97, 0]

/-- The zero-size entry the parser builds from `c9data`. -/
def c9entry : FileEntry := { path := [97], lowercasePath := [97], offset := 26, size := 0 }

/-- The reader the parser builds from `c9data`. -/
def c9reader : Reader := { data := c9data, files := [c9entry], lookup := [([97], 0)] }

/-- C9 witness: the parser accepts `c9data`, `findFile` locates the
zero-size entry, and extraction fails on it with invalid bounds. -/
theorem c9_zero_size_unextractable_witness :
    Reader.parseBytes c9data = .ok c9reader ∧
    c9reader.findFile [97] = some c9entry ∧
    c9entry.size = 0 ∧
    c9reader.getFileView c9entry = [] ∧
    c9reader.extractToMemory c9entry = none ∧
    c9reader.extract c9entry true = .error .invalidBounds :=
  have h := c9_zero_size_unextractable c9reader c9entry (by decide)
  ⟨by decide, by decide, by decide, h.1, h.2.1, h.2.2 true⟩

/-! ### C4 -/

/-- C4: if some pending entry's normalized path collides with the
normalized `archivePath`, both `addFile` overloads fail with the
duplicate-path error and return the receiver unchanged, so `fileCount`
is unchanged and the pending entries are untouched. -/
theorem c4_duplicate_rejection (w : Writer) (disk : Disk)
    (sourcePath archivePath data : List Nat)
    (hdup : ∃ q ∈ w.pendingFiles, normalizePath q.archivePath = normalizePath archivePath)
    (hsrc : (disk sourcePath).isSome) :
    w.addFileDisk disk sourcePath archivePath = (some .duplicatePath, w) ∧
    w.addFileMem data archivePath = (some .duplicatePath, w) ∧
    (w.addFileDisk disk sourcePath archivePath).2.fileCount = w.fileCount ∧
    (w.addFileMem data archivePath).2.fileCount = w.fileCount ∧
    (w.addFileDisk disk sourcePath archivePath).2.pendingFiles = w.pendingFiles ∧
    (w.addFileMem data archivePath).2.pendingFiles = w.pendingFiles := by
  have hd : w.hasDuplicate archivePath = true := by
    rcases hdup with ⟨q, hq, hnorm⟩
    unfold Writer.hasDuplicate
    rw [List.any_eq_true]
    exact ⟨q, hq, by simpa using hnorm⟩
  have hnone : (disk sourcePath).isNone = false := by
    rcases hod : disk sourcePath with _ | v
    · rw [hod] at hsrc; cases hsrc
    · rfl
  have h1 : w.addFileDisk disk sourcePath archivePath = (some .duplicatePath, w) := by
    unfold Writer.addFileDisk
    rw [hnone, hd]
    rfl
  have h2 : w.addFileMem data archivePath = (some .duplicatePath, w) := by
    unfold Writer.addFileMem
    rw [hd]
    rfl
  exact ⟨h1, h2, by rw [h1], by rw [h2], by rw [h1], by rw [h2]⟩

/-- The writer state for the C4 witness: one pending entry `"a/b"`. -/
def c4writer : Writer :=
  { pendingFiles := [{ archivePath := [97, 47, 98], sourcePath := [], data := [104],
                       fromDisk := false }],
    entries := [] }

/-- C4 witness at a concrete state: adding `"A\\B"` (backslash and case
variation of the pending `"a/b"`) fails both overloads and leaves the
pending set unchanged. -/
theorem c4_duplicate_rejection_witness :
    (∃ q ∈ c4writer.pendingFiles,
        normalizePath q.archivePath = normalizePath [65, 92, 66]) ∧
    (c4writer.addFileDisk (fun _ => some []) [115] [65, 92, 66] =
        (some .duplicatePath, c4writer) ∧
      c4writer.addFileMem [1, 2] [65, 92, 66] = (some .duplicatePath, c4writer) ∧
      (c4writer.addFileDisk (fun _ => some []) [115] [65, 92, 66]).2.fileCount =
        c4writer.fileCount ∧
      (c4writer.addFileMem [1, 2] [65, 92, 66]).2.fileCount = c4writer.fileCount ∧
      (c4writer.addFileDisk (fun _ => some []) [115] [65, 92, 66]).2.pendingFiles =
        c4writer.pendingFiles ∧
      (c4writer.addFileMem [1, 2] [65, 92, 66]).2.pendingFiles = c4writer.pendingFiles) :=
  ⟨⟨{ archivePath := [97, 47, 98], sourcePath := [], data := [104], fromDisk := false },
      by decide, by decide⟩,
    c4_duplicate_rejection c4writer (fun _ => some []) [115] [65, 92, 66] [1, 2]
      ⟨{ archivePath := [97, 47, 98], sourcePath := [], data := [104], fromDisk := false },
        by decide, by decide⟩ rfl⟩

/-! ### C10 -/

/-- C10: `write` never touches `pendingFiles_` (success or failure), so
`fileCount` is preserved; the emitted bytes depend only on the pending
list, so writing again from the post-write state emits identical bytes;
and only `clear` empties the pending list. -/
theorem c10_write_frame (w : Writer) (disk : Disk) :
    (w.write disk).2.pendingFiles = w.pendingFiles ∧
    (w.write disk).2.fileCount = w.fileCount ∧
    (∀ w₂ : Writer, w₂.pendingFiles = w.pendingFiles →
      (w₂.write disk).1 = (w.write disk).1) ∧
    ((w.write disk).2.write disk).1 = (w.write disk).1 ∧
    (w.clear).pendingFiles = [] ∧ (w.clear).entries = [] := by
  have hpend : (w.write disk).2.pendingFiles = w.pendingFiles := by
    unfold Writer.write
    split
    · rfl
    · split
      · rfl
      · rfl
  have hbytes : ∀ w₂ : Writer, w₂.pendingFiles = w.pendingFiles →
      (w₂.write disk).1 = (w.write disk).1 := by
    intro w₂ h₂
    unfold Writer.write
    rw [h₂]
    split
    · rfl
    · split
      · rfl
      · rfl
  refine ⟨hpend, ?_, hbytes, hbytes _ hpend, rfl, rfl⟩
  unfold Writer.fileCount
  rw [hpend]

/-- C10 witness at a concrete one-entry writer and disk. -/
theorem c10_write_frame_witness :
    ((c4writer.write (fun _ => none)).2.pendingFiles = c4writer.pendingFiles ∧
      (c4writer.write (fun _ => none)).2.fileCount = c4writer.fileCount ∧
      (∀ w₂ : Writer, w₂.pendingFiles = c4writer.pendingFiles →
        (w₂.write (fun _ => none)).1 = (c4writer.write (fun _ => none)).1) ∧
      ((c4writer.write (fun _ => none)).2.write (fun _ => none)).1 =
        (c4writer.write (fun _ => none)).1 ∧
      (c4writer.clear).pendingFiles = [] ∧ (c4writer.clear).entries = []) :=
  c10_write_frame c4writer (fun _ => none)

/-! ### C6 -/

/-- C6: with no pending entries, `write` succeeds (no mapping needed)
and emits exactly the 16 header bytes: magic `"BIGF"`, big-endian total
size 16, file count 0, zero padding; opening that output succeeds with
an empty directory. -/
theorem c6_empty_archive (disk : Disk) :
    (Writer.write { pendingFiles := [], entries := [] } disk).1 = .ok emptyArchiveBytes ∧
    (Writer.write { pendingFiles := [], entries := [] } disk).2 =
      { pendingFiles := [], entries := [] } ∧
    emptyArchiveBytes.length = 16 ∧
    emptyArchiveBytes = [66, 73, 71, 70, 0, 0, 0, 16, 0, 0, 0, 0, 0, 0, 0, 0] ∧
    Reader.parseBytes emptyArchiveBytes =
      .ok { data := emptyArchiveBytes, files := [], lookup := [] } ∧
    Reader.fileCount { data := emptyArchiveBytes, files := [], lookup := [] } = 0 := by
  refine ⟨rfl, rfl, by decide, by decide, by decide, rfl⟩

/-! ### C5 -/

/-- C5: the parser rejects a too-small file with the too-small error, a
bad magic with the bad-magic error, and an entry whose 8-byte
offset/size slot does not fit in the remaining bytes with the
truncated-entry error naming that entry's index. -/
theorem c5_corruption_rejection :
    (∀ d : List Nat, d.length < 16 → Reader.parseBytes d = .error (.tooSmall d.length)) ∧
    (∀ d : List Nat, 16 ≤ d.length → d.take 4 ≠ magicBytes →
      Reader.parseBytes d = .error .badMagic) ∧
    (∀ (d : List Nat) (pos i n : Nat), pos + 8 > d.length →
      parseEntries d pos i (n + 1) = .error (.truncatedEntry i)) := by
  refine ⟨?_, ?_, ?_⟩
  · intro d h
    unfold Reader.parseBytes headerSize
    rw [if_pos h]
  · intro d hlen hmagic
    unfold Reader.parseBytes headerSize
    rw [if_neg (by omega), if_pos hmagic]
  · intro d pos i n h
    unfold parseEntries
    rw [if_pos h]

/-- C5 witness: a 3-byte file is too small; 16 zero bytes have a bad
magic; an empty buffer truncates entry 0 of a 1-entry directory. -/
theorem c5_corruption_rejection_witness :
    ([1, 2, 3] : List Nat).length < 16 ∧
    Reader.parseBytes [1, 2, 3] = .error (.tooSmall 3) ∧
    Reader.parseBytes [0, 0, 0, 0, 0, 0, 0, 0, 0, 0, 0, 0, 0, 0, 0, 0] =
      .error .badMagic ∧
    parseEntries [] 0 0 1 = .error (.truncatedEntry 0) :=
  ⟨by decide,
    c5_corruption_rejection.1 [1, 2, 3] (by decide),
    c5_corruption_rejection.2.1 [0, 0, 0, 0, 0, 0, 0, 0, 0, 0, 0, 0, 0, 0, 0, 0]
      (by decide) (by decide),
    c5_corruption_rejection.2.2 [] 0 0 0 (by decide)⟩

/-! ### C3: the lookup index built by parse -/

/-- The association list `buildLookupAux` produces on success: each
entry's lowercase path paired with its directory index, in order. -/
def mkLookup : List FileEntry → Nat → List (List Nat × Nat)
  | [], _ => []
  | e :: es, i => (e.lowercasePath, i) :: mkLookup es (i + 1)

lemma buildLookupAux_ok_eq :
    ∀ (es : List FileEntry) (i : Nat) (acc l : List (List Nat × Nat)),
      buildLookupAux es i acc = .ok l → l = acc ++ mkLookup es i := by
  intro es
  induction es with
  | nil =>
    intro i acc l h
    simp only [buildLookupAux] at h
    cases h
    simp [mkLookup]
  | cons e rest ih =>
    intro i acc l h
    simp only [buildLookupAux] at h
    split at h
    · cases h
    · have := ih (i + 1) (acc ++ [(e.lowercasePath, i)]) l h
      rw [this, List.append_assoc]
      rfl

lemma buildLookupAux_ok_nodup :
    ∀ (es : List FileEntry) (i : Nat) (acc l : List (List Nat × Nat)),
      buildLookupAux es i acc = .ok l →
      (es.map (fun e => e.lowercasePath)).Nodup ∧
        ∀ e ∈ es, ∀ kv ∈ acc, kv.1 ≠ e.lowercasePath := by
  intro es
  induction es with
  | nil =>
    intro i acc l h
    exact ⟨List.nodup_nil, by simp⟩
  | cons e rest ih =>
    intro i acc l h
    simp only [buildLookupAux] at h
    split at h
    · cases h
    · next hdup =>
      obtain ⟨hnd, hacc⟩ := ih (i + 1) (acc ++ [(e.lowercasePath, i)]) l h
      rw [List.any_eq_true] at hdup
      push_neg at hdup
      constructor
      · rw [List.map_cons, List.nodup_cons]
        refine ⟨?_, hnd⟩
        intro hmem
        rcases List.mem_map.mp hmem with ⟨f, hf, hfe⟩
        have := hacc f hf (e.lowercasePath, i) (by simp)
        exact this hfe.symm
      · intro f hf kv hkv
        rcases List.mem_cons.mp hf with hf | hf
        · subst hf
          intro hk
          exact hdup kv hkv (by simpa using hk)
        · exact hacc f hf kv (List.mem_append_left _ hkv)

lemma parseBytes_lookup_spec (d : List Nat) (r : Reader)
    (h : Reader.parseBytes d = .ok r) :
    r.lookup = mkLookup r.files 0 ∧ (r.files.map (fun e => e.lowercasePath)).Nodup := by
  obtain ⟨-, -, hlk⟩ := parseBytes_ok_inv d r h
  exact ⟨buildLookupAux_ok_eq _ _ _ _ hlk, (buildLookupAux_ok_nodup _ _ _ _ hlk).1⟩

lemma find_mkLookup_hit :
    ∀ (es pre : List FileEntry) (e : FileEntry) (k : List Nat),
      ((pre ++ es).map (fun f => f.lowercasePath)).Nodup → e ∈ es → e.lowercasePath = k →
      ∃ j, (mkLookup es pre.length).find? (fun kv => kv.1 = k) = some (k, j) ∧
        (pre ++ es).get? j = some e := by
  intro es
  induction es with
  | nil =>
    intro pre e k _ he
    simp at he
  | cons f rest ih =>
    intro pre e k hnd he hk
    by_cases hfk : f.lowercasePath = k
    · refine ⟨pre.length, ?_, ?_⟩
      · simp only [mkLookup]
        rw [List.find?_cons_of_pos _ (by simpa using hfk), hfk]
      · have hef : e = f := by
          rcases List.mem_cons.mp he with h | h
          · exact h
          · exfalso
            have hsuf : ((f :: rest).map (fun f => f.lowercasePath)).Nodup := by
              rw [List.map_append] at hnd
              exact hnd.of_append_right
            rw [List.map_cons, List.nodup_cons] at hsuf
            exact hsuf.1 (List.mem_map.mpr ⟨e, h, by rw [hk, hfk]⟩)
        rw [List.get?_append_right (Nat.le_refl _)]
        simp [hef]
    · have hef : e ∈ rest := by
        rcases List.mem_cons.mp he with h | h
        · exact absurd (h ▸ hk) hfk
        · exact h
      have hnd2 : (((pre ++ [f]) ++ rest).map (fun f => f.lowercasePath)).Nodup := by
        rw [List.append_assoc]
        simpa using hnd
      obtain ⟨j, hfind, hget⟩ := ih (pre ++ [f]) e k hnd2 hef hk
      refine ⟨j, ?_, ?_⟩
      · simp only [mkLookup]
        rw [List.find?_cons_of_neg _ (by simpa using hfk)]
        rw [List.length_append, List.length_singleton] at hfind
        exact hfind
      · rw [List.append_assoc] at hget
        simpa using hget

lemma find_mkLookup_none :
    ∀ (es : List FileEntry) (i : Nat) (k : List Nat),
      (∀ e ∈ es, e.lowercasePath ≠ k) →
      (mkLookup es i).find? (fun kv => kv.1 = k) = none := by
  intro es
  induction es with
  | nil => intro i k _; rfl
  | cons f rest ih =>
    intro i k hne
    simp only [mkLookup]
    rw [List.find?_cons_of_neg _ (by simpa using hne f (by simp))]
    exact ih (i + 1) k (fun e he => hne e (List.mem_cons_of_mem _ he))

/-- C3: on any successfully parsed reader, `findFile p` returns the
entry whose lowercase slash-normalized path equals `normalizePath p`
(so every case or backslash variation of a stored path resolves to the
same entry), and returns nothing when no entry's normalized path
matches. -/
theorem c3_case_insensitive_lookup (d : List Nat) (r : Reader)
    (h : Reader.parseBytes d = .ok r) (p : List Nat) :
    (∀ e ∈ r.files, normalizePath p = e.lowercasePath → r.findFile p = some e) ∧
    ((∀ e ∈ r.files, e.lowercasePath ≠ normalizePath p) → r.findFile p = none) := by
  obtain ⟨hlk, hnd⟩ := parseBytes_lookup_spec d r h
  constructor
  · intro e he hnorm
    obtain ⟨j, hfind, hget⟩ :=
      find_mkLookup_hit r.files [] e (normalizePath p) (by simpa using hnd) he hnorm.symm
    unfold Reader.findFile
    rw [hlk]
    have : (mkLookup r.files 0).find? (fun kv => kv.1 = normalizePath p) =
        some (normalizePath p, j) := hfind
    rw [this]
    simpa using hget
  · intro hne
    unfold Reader.findFile
    rw [hlk, find_mkLookup_none r.files 0 (normalizePath p) hne]

/-- A concrete archive storing the single path `"a/b"` with one data
byte, for the C3 witness. -/
def c3data : List Nat :=
  [66, 73, 71, 70, 0, 0, 0, 29, 0, 0, 0, 1, 0, 0, 0, 0,
   0, 0, 0, 28, 0, 0, 0, 1, 97, 47, 98, 0, 120]

/-- The entry the parser builds from `c3data`. -/
def c3entry : FileEntry :=
  { path := [97, 47, 98], lowercasePath := [97, 47, 98], offset := 28, size := 1 }

/-- The reader the parser builds from `c3data`. -/
def c3reader : Reader :=
  { data := c3data, files := [c3entry], lookup := [([97, 47, 98], 0)] }

/-- C3 witness: on the parsed `c3data`, the query `"A\\B"` (case and
backslash variation of the stored `"a/b"`) resolves to the entry, and
the query `"z"` resolves to nothing. -/
theorem c3_case_insensitive_lookup_witness :
    Reader.parseBytes c3data = .ok c3reader ∧
    c3reader.findFile [65, 92, 66] = some c3entry ∧
    c3reader.findFile [122] = none :=
  ⟨by decide,
    (c3_case_insensitive_lookup c3data c3reader (by decide) [65, 92, 66]).1
      c3entry (by decide) (by decide),
    (c3_case_insensitive_lookup c3data c3reader (by decide) [122]).2 (by decide)⟩

/-! ### C8: byte-order utilities (endian.hpp) -/

/-- Embeds `bigx::detail::byteswap(uint16_t)` (endian.hpp lines 12-14):
the shifts act on the promoted value and the result is cast back to
`uint16_t`, hence the final `% 2 ^ 16`. -/
def byteswap16 (v : Nat) : Nat := ((v <<< 8) ||| (v >>> 8)) % 2 ^ 16

/-- Embeds `bigx::detail::byteswap(uint32_t)` (endian.hpp lines 16-19);
every intermediate stays below `2 ^ 32`, matching `uint32_t`. -/
def byteswap32 (v : Nat) : Nat :=
  ((v &&& 0x000000FF) <<< 24) ||| ((v &&& 0x0000FF00) <<< 8) |||
    ((v &&& 0x00FF0000) >>> 8) ||| ((v &&& 0xFF000000) >>> 24)

/-- Embeds `bigx::detail::byteswap(uint64_t)` (endian.hpp lines 21-26). -/
def byteswap64 (v : Nat) : Nat :=
  ((v &&& 0x00000000000000FF) <<< 56) ||| ((v &&& 0x000000000000FF00) <<< 40) |||
    ((v &&& 0x0000000000FF0000) <<< 24) ||| ((v &&& 0x00000000FF000000) <<< 8) |||
    ((v &&& 0x000000FF00000000) >>> 8) ||| ((v &&& 0x0000FF0000000000) >>> 24) |||
    ((v &&& 0x00FF000000000000) >>> 40) ||| ((v &&& 0xFF00000000000000) >>> 56)

/-- Embeds `bigx::betoh16` (endian.hpp): swap on a little-endian host,
identity on a big-endian host.  The host's endianness
(`std::endian::native`) is the `little` parameter. -/
def betoh16 (little : Bool) (v : Nat) : Nat := if little then byteswap16 v else v

/-- Embeds `bigx::betoh32` (endian.hpp). -/
def betoh32 (little : Bool) (v : Nat) : Nat := if little then byteswap32 v else v

/-- Embeds `bigx::betoh64` (endian.hpp). -/
def betoh64 (little : Bool) (v : Nat) : Nat := if little then byteswap64 v else v

/-- Embeds `bigx::htobe16` (endian.hpp). -/
def htobe16 (little : Bool) (v : Nat) : Nat := if little then byteswap16 v else v

/-- Embeds `bigx::htobe32` (endian.hpp). -/
def htobe32 (little : Bool) (v : Nat) : Nat := if little then byteswap32 v else v

/-- Embeds `bigx::htobe64` (endian.hpp). -/
def htobe64 (little : Bool) (v : Nat) : Nat := if little then byteswap64 v else v

lemma or_div_two_pow (k : Nat) : ∀ a b : Nat, (a ||| b) / 2 ^ k = a / 2 ^ k ||| b / 2 ^ k := by
  induction k with
  | zero => intro a b; simp
  | succ n ih =>
    intro a b
    have h2 : (2 : Nat) ^ (n + 1) = 2 ^ n * 2 := by ring
    rw [h2, ← Nat.div_div_eq_div_mul, ← Nat.div_div_eq_div_mul, ← Nat.div_div_eq_div_mul,
      ih, Nat.or_div_two]

lemma or_mod_two_pow (k a b : Nat) : (a ||| b) % 2 ^ k = a % 2 ^ k ||| b % 2 ^ k := by
  rw [← Nat.and_pow_two_sub_one_eq_mod, ← Nat.and_pow_two_sub_one_eq_mod,
    ← Nat.and_pow_two_sub_one_eq_mod, Nat.and_comm a, Nat.and_comm b,
    Nat.and_comm (a ||| b), Nat.and_or_distrib_left]

lemma mul_two_pow_lor_eq_add (x y k : Nat) (hy : y < 2 ^ k) :
    x * 2 ^ k ||| y = x * 2 ^ k + y := by
  have hpos : 0 < 2 ^ k := Nat.pos_pow_of_pos k (by omega)
  have hmod : (x * 2 ^ k ||| y) % 2 ^ k = y := by
    rw [or_mod_two_pow, Nat.mul_mod_left, Nat.mod_eq_of_lt hy, Nat.zero_or]
  have hdiv : (x * 2 ^ k ||| y) / 2 ^ k = x := by
    rw [or_div_two_pow, Nat.mul_div_cancel x hpos, Nat.div_eq_of_lt hy, Nat.or_zero]
  have hdm := Nat.div_add_mod (x * 2 ^ k ||| y) (2 ^ k)
  rw [hdiv, hmod] at hdm
  rw [← hdm]
  ring

lemma and_byte_mask (v k : Nat) : v &&& (2 ^ 8 - 1) * 2 ^ k = v / 2 ^ k % 2 ^ 8 * 2 ^ k := by
  apply Nat.eq_of_testBit_eq
  intro i
  have hrhs : v / 2 ^ k % 2 ^ 8 * 2 ^ k = ((v >>> k) % 2 ^ 8) <<< k := by
    rw [Nat.shiftLeft_eq, Nat.shiftRight_eq_div_pow]
  have hmask : (2 ^ 8 - 1) * 2 ^ k = (2 ^ 8 - 1) <<< k := by
    rw [Nat.shiftLeft_eq]
  rw [hrhs, hmask]
  simp only [Nat.testBit_and, Nat.testBit_shiftLeft, Nat.testBit_mod_two_pow,
    Nat.testBit_shiftRight, Nat.testBit_two_pow_sub_one]
  by_cases hik : k ≤ i
  · have hki : k + (i - k) = i := by omega
    simp [hik, hki, Bool.and_comm, Bool.and_left_comm]
  · simp [hik]
    
lemma byteswap16_eq (v : Nat) (h : v < 2 ^ 16) :
    byteswap16 v = v % 2 ^ 8 * 2 ^ 8 + v / 2 ^ 8 := by
  unfold byteswap16
  rw [Nat.shiftLeft_eq, Nat.shiftRight_eq_div_pow,
    mul_two_pow_lor_eq_add v (v / 2 ^ 8) 8 (by omega)]
  have h1 : v % 2 ^ 8 < 2 ^ 8 := Nat.mod_lt _ (by norm_num)
  omega

lemma byteswap32_eq (v : Nat) (h : v < 2 ^ 32) :
    byteswap32 v =
      v % 2 ^ 8 * 2 ^ 24 + v / 2 ^ 8 % 2 ^ 8 * 2 ^ 16 +
        v / 2 ^ 16 % 2 ^ 8 * 2 ^ 8 + v / 2 ^ 24 := by
  unfold byteswap32
  rw [show (0x000000FF : Nat) = (2 ^ 8 - 1) * 2 ^ 0 by norm_num,
    show (0x0000FF00 : Nat) = (2 ^ 8 - 1) * 2 ^ 8 by norm_num,
    show (0x00FF0000 : Nat) = (2 ^ 8 - 1) * 2 ^ 16 by norm_num,
    show (0xFF000000 : Nat) = (2 ^ 8 - 1) * 2 ^ 24 by norm_num,
    and_byte_mask, and_byte_mask, and_byte_mask, and_byte_mask]
  rw [Nat.shiftLeft_eq, Nat.shiftLeft_eq, Nat.shiftRight_eq_div_pow, Nat.shiftRight_eq_div_pow]
  have e0 : v / 2 ^ 0 % 2 ^ 8 * 2 ^ 0 * 2 ^ 24 = v % 2 ^ 8 * 2 ^ 24 := by
    norm_num
  have e1 : v / 2 ^ 8 % 2 ^ 8 * 2 ^ 8 * 2 ^ 8 = v / 2 ^ 8 % 2 ^ 8 * 2 ^ 16 := by
    rw [Nat.mul_assoc]; norm_num
  have e2 : v / 2 ^ 16 % 2 ^ 8 * 2 ^ 16 / 2 ^ 8 = v / 2 ^ 16 % 2 ^ 8 * 2 ^ 8 := by
    rw [Nat.mul_div_assoc _ (by norm_num : (2 : Nat) ^ 8 ∣ 2 ^ 16)]; norm_num
  have e3 : v / 2 ^ 24 % 2 ^ 8 * 2 ^ 24 / 2 ^ 24 = v / 2 ^ 24 := by
    rw [Nat.mul_div_cancel _ (by norm_num : (0 : Nat) < 2 ^ 24)]
    exact Nat.mod_eq_of_lt (by omega)
  rw [e0, e1, e2, e3]
  have b0 : v % 2 ^ 8 < 2 ^ 8 := Nat.mod_lt _ (by norm_num)
  have b1 : v / 2 ^ 8 % 2 ^ 8 < 2 ^ 8 := Nat.mod_lt _ (by norm_num)
  have b2 : v / 2 ^ 16 % 2 ^ 8 < 2 ^ 8 := Nat.mod_lt _ (by norm_num)
  have b3 : v / 2 ^ 24 < 2 ^ 8 := by omega
  rw [Nat.or_assoc, Nat.or_assoc]
  rw [mul_two_pow_lor_eq_add (v / 2 ^ 16 % 2 ^ 8) (v / 2 ^ 24) 8 b3]
  have hcd : v / 2 ^ 16 % 2 ^ 8 * 2 ^ 8 + v / 2 ^ 24 < 2 ^ 16 := by omega
  rw [mul_two_pow_lor_eq_add (v / 2 ^ 8 % 2 ^ 8) _ 16 hcd]
  have hbcd : v / 2 ^ 8 % 2 ^ 8 * 2 ^ 16 +
      (v / 2 ^ 16 % 2 ^ 8 * 2 ^ 8 + v / 2 ^ 24) < 2 ^ 24 := by omega
  rw [mul_two_pow_lor_eq_add (v % 2 ^ 8) _ 24 hbcd]
  omega

lemma byteswap64_eq (v : Nat) (h : v < 2 ^ 64) :
    byteswap64 v =
      v % 2 ^ 8 * 2 ^ 56 + v / 2 ^ 8 % 2 ^ 8 * 2 ^ 48 +
        v / 2 ^ 16 % 2 ^ 8 * 2 ^ 40 + v / 2 ^ 24 % 2 ^ 8 * 2 ^ 32 +
        v / 2 ^ 32 % 2 ^ 8 * 2 ^ 24 + v / 2 ^ 40 % 2 ^ 8 * 2 ^ 16 +
        v / 2 ^ 48 % 2 ^ 8 * 2 ^ 8 + v / 2 ^ 56 := by
  unfold byteswap64
  rw [show (0x00000000000000FF : Nat) = (2 ^ 8 - 1) * 2 ^ 0 by norm_num,
    show (0x000000000000FF00 : Nat) = (2 ^ 8 - 1) * 2 ^ 8 by norm_num,
    show (0x0000000000FF0000 : Nat) = (2 ^ 8 - 1) * 2 ^ 16 by norm_num,
    show (0x00000000FF000000 : Nat) = (2 ^ 8 - 1) * 2 ^ 24 by norm_num,
    show (0x000000FF00000000 : Nat) = (2 ^ 8 - 1) * 2 ^ 32 by norm_num,
    show (0x0000FF0000000000 : Nat) = (2 ^ 8 - 1) * 2 ^ 40 by norm_num,
    show (0x00FF000000000000 : Nat) = (2 ^ 8 - 1) * 2 ^ 48 by norm_num,
    show (0xFF00000000000000 : Nat) = (2 ^ 8 - 1) * 2 ^ 56 by norm_num,
    and_byte_mask, and_byte_mask, and_byte_mask, and_byte_mask,
    and_byte_mask, and_byte_mask, and_byte_mask, and_byte_mask]
  rw [Nat.shiftLeft_eq, Nat.shiftLeft_eq, Nat.shiftLeft_eq, Nat.shiftLeft_eq,
    Nat.shiftRight_eq_div_pow, Nat.shiftRight_eq_div_pow,
    Nat.shiftRight_eq_div_pow, Nat.shiftRight_eq_div_pow]
  have e0 : v / 2 ^ 0 % 2 ^ 8 * 2 ^ 0 * 2 ^ 56 = v % 2 ^ 8 * 2 ^ 56 := by norm_num
  have e1 : v / 2 ^ 8 % 2 ^ 8 * 2 ^ 8 * 2 ^ 40 = v / 2 ^ 8 % 2 ^ 8 * 2 ^ 48 := by
    rw [Nat.mul_assoc]; norm_num
  have e2 : v / 2 ^ 16 % 2 ^ 8 * 2 ^ 16 * 2 ^ 24 = v / 2 ^ 16 % 2 ^ 8 * 2 ^ 40 := by
    rw [Nat.mul_assoc]; norm_num
  have e3 : v / 2 ^ 24 % 2 ^ 8 * 2 ^ 24 * 2 ^ 8 = v / 2 ^ 24 % 2 ^ 8 * 2 ^ 32 := by
    rw [Nat.mul_assoc]; norm_num
  have e4 : v / 2 ^ 32 % 2 ^ 8 * 2 ^ 32 / 2 ^ 8 = v / 2 ^ 32 % 2 ^ 8 * 2 ^ 24 := by
    rw [Nat.mul_div_assoc _ (by norm_num : (2 : Nat) ^ 8 ∣ 2 ^ 32)]; norm_num
  have e5 : v / 2 ^ 40 % 2 ^ 8 * 2 ^ 40 / 2 ^ 24 = v / 2 ^ 40 % 2 ^ 8 * 2 ^ 16 := by
    rw [Nat.mul_div_assoc _ (by norm_num : (2 : Nat) ^ 24 ∣ 2 ^ 40)]; norm_num
  have e6 : v / 2 ^ 48 % 2 ^ 8 * 2 ^ 48 / 2 ^ 40 = v / 2 ^ 48 % 2 ^ 8 * 2 ^ 8 := by
    rw [Nat.mul_div_assoc _ (by norm_num : (2 : Nat) ^ 40 ∣ 2 ^ 48)]; norm_num
  have e7 : v / 2 ^ 56 % 2 ^ 8 * 2 ^ 56 / 2 ^ 56 = v / 2 ^ 56 := by
    rw [Nat.mul_div_cancel _ (by norm_num : (0 : Nat) < 2 ^ 56)]
    exact Nat.mod_eq_of_lt (by omega)
  rw [e0, e1, e2, e3, e4, e5, e6, e7]
  have b0 : v % 2 ^ 8 < 2 ^ 8 := Nat.mod_lt _ (by norm_num)
  have b1 : v / 2 ^ 8 % 2 ^ 8 < 2 ^ 8 := Nat.mod_lt _ (by norm_num)
  have b2 : v / 2 ^ 16 % 2 ^ 8 < 2 ^ 8 := Nat.mod_lt _ (by norm_num)
  have b3 : v / 2 ^ 24 % 2 ^ 8 < 2 ^ 8 := Nat.mod_lt _ (by norm_num)
  have b4 : v / 2 ^ 32 % 2 ^ 8 < 2 ^ 8 := Nat.mod_lt _ (by norm_num)
  have b5 : v / 2 ^ 40 % 2 ^ 8 < 2 ^ 8 := Nat.mod_lt _ (by norm_num)
  have b6 : v / 2 ^ 48 % 2 ^ 8 < 2 ^ 8 := Nat.mod_lt _ (by norm_num)
  have b7 : v / 2 ^ 56 < 2 ^ 8 := by omega
  rw [Nat.or_assoc, Nat.or_assoc, Nat.or_assoc, Nat.or_assoc, Nat.or_assoc, Nat.or_assoc]
  rw [mul_two_pow_lor_eq_add (v / 2 ^ 48 % 2 ^ 8) (v / 2 ^ 56) 8 b7]
  have h6 : v / 2 ^ 48 % 2 ^ 8 * 2 ^ 8 + v / 2 ^ 56 < 2 ^ 16 := by omega
  rw [mul_two_pow_lor_eq_add (v / 2 ^ 40 % 2 ^ 8) _ 16 h6]
  have h5 : v / 2 ^ 40 % 2 ^ 8 * 2 ^ 16 +
      (v / 2 ^ 48 % 2 ^ 8 * 2 ^ 8 + v / 2 ^ 56) < 2 ^ 24 := by omega
  rw [mul_two_pow_lor_eq_add (v / 2 ^ 32 % 2 ^ 8) _ 24 h5]
  have h4 : v / 2 ^ 32 % 2 ^ 8 * 2 ^ 24 +
      (v / 2 ^ 40 % 2 ^ 8 * 2 ^ 16 + (v / 2 ^ 48 % 2 ^ 8 * 2 ^ 8 + v / 2 ^ 56)) < 2 ^ 32 := by
    omega
  rw [mul_two_pow_lor_eq_add (v / 2 ^ 24 % 2 ^ 8) _ 32 h4]
  have h3 : v / 2 ^ 24 % 2 ^ 8 * 2 ^ 32 +
      (v / 2 ^ 32 % 2 ^ 8 * 2 ^ 24 +
        (v / 2 ^ 40 % 2 ^ 8 * 2 ^ 16 + (v / 2 ^ 48 % 2 ^ 8 * 2 ^ 8 + v / 2 ^ 56))) <
      2 ^ 40 := by omega
  rw [mul_two_pow_lor_eq_add (v / 2 ^ 16 % 2 ^ 8) _ 40 h3]
  have h2 : v / 2 ^ 16 % 2 ^ 8 * 2 ^ 40 +
      (v / 2 ^ 24 % 2 ^ 8 * 2 ^ 32 +
        (v / 2 ^ 32 % 2 ^ 8 * 2 ^ 24 +
          (v / 2 ^ 40 % 2 ^ 8 * 2 ^ 16 + (v / 2 ^ 48 % 2 ^ 8 * 2 ^ 8 + v / 2 ^ 56)))) <
      2 ^ 48 := by omega
  rw [mul_two_pow_lor_eq_add (v / 2 ^ 8 % 2 ^ 8) _ 48 h2]
  have h1 : v / 2 ^ 8 % 2 ^ 8 * 2 ^ 48 +
      (v / 2 ^ 16 % 2 ^ 8 * 2 ^ 40 +
        (v / 2 ^ 24 % 2 ^ 8 * 2 ^ 32 +
          (v / 2 ^ 32 % 2 ^ 8 * 2 ^ 24 +
            (v / 2 ^ 40 % 2 ^ 8 * 2 ^ 16 + (v / 2 ^ 48 % 2 ^ 8 * 2 ^ 8 + v / 2 ^ 56))))) <
      2 ^ 56 := by omega
  rw [mul_two_pow_lor_eq_add (v % 2 ^ 8) _ 56 h1]
  omega

lemma byteswap32_bytes (b0 b1 b2 b3 : Nat)
    (h0 : b0 < 2 ^ 8) (h1 : b1 < 2 ^ 8) (h2 : b2 < 2 ^ 8) (h3 : b3 < 2 ^ 8) :
    byteswap32 (b3 * 2 ^ 24 + b2 * 2 ^ 16 + b1 * 2 ^ 8 + b0) =
      b0 * 2 ^ 24 + b1 * 2 ^ 16 + b2 * 2 ^ 8 + b3 := by
  rw [byteswap32_eq _ (by omega)]
  omega

lemma byteswap64_bytes (b0 b1 b2 b3 b4 b5 b6 b7 : Nat)
    (h0 : b0 < 2 ^ 8) (h1 : b1 < 2 ^ 8) (h2 : b2 < 2 ^ 8) (h3 : b3 < 2 ^ 8)
    (h4 : b4 < 2 ^ 8) (h5 : b5 < 2 ^ 8) (h6 : b6 < 2 ^ 8) (h7 : b7 < 2 ^ 8) :
    byteswap64 (b7 * 2 ^ 56 + b6 * 2 ^ 48 + b5 * 2 ^ 40 + b4 * 2 ^ 32 +
        b3 * 2 ^ 24 + b2 * 2 ^ 16 + b1 * 2 ^ 8 + b0) =
      b0 * 2 ^ 56 + b1 * 2 ^ 48 + b2 * 2 ^ 40 + b3 * 2 ^ 32 +
        b4 * 2 ^ 24 + b5 * 2 ^ 16 + b6 * 2 ^ 8 + b7 := by
  rw [byteswap64_eq _ (by omega)]
  omega

lemma byteswap16_involutive (v : Nat) (h : v < 2 ^ 16) :
    byteswap16 (byteswap16 v) = v := by
  have h1 := byteswap16_eq v h
  have hlt : byteswap16 v < 2 ^ 16 := by
    rw [h1]
    have : v % 2 ^ 8 < 2 ^ 8 := Nat.mod_lt _ (by norm_num)
    omega
  rw [byteswap16_eq _ hlt, h1]
  omega

lemma byteswap32_involutive (v : Nat) (h : v < 2 ^ 32) :
    byteswap32 (byteswap32 v) = v := by
  rw [byteswap32_eq v h]
  rw [byteswap32_bytes (v / 2 ^ 24) (v / 2 ^ 16 % 2 ^ 8) (v / 2 ^ 8 % 2 ^ 8) (v % 2 ^ 8)
    (by omega) (Nat.mod_lt _ (by norm_num)) (Nat.mod_lt _ (by norm_num))
    (Nat.mod_lt _ (by norm_num))]
  omega

lemma byteswap64_involutive (v : Nat) (h : v < 2 ^ 64) :
    byteswap64 (byteswap64 v) = v := by
  rw [byteswap64_eq v h]
  rw [byteswap64_bytes (v / 2 ^ 56) (v / 2 ^ 48 % 2 ^ 8) (v / 2 ^ 40 % 2 ^ 8)
    (v / 2 ^ 32 % 2 ^ 8) (v / 2 ^ 24 % 2 ^ 8) (v / 2 ^ 16 % 2 ^ 8) (v / 2 ^ 8 % 2 ^ 8)
    (v % 2 ^ 8) (by omega) (Nat.mod_lt _ (by norm_num)) (Nat.mod_lt _ (by norm_num))
    (Nat.mod_lt _ (by norm_num)) (Nat.mod_lt _ (by norm_num)) (Nat.mod_lt _ (by norm_num))
    (Nat.mod_lt _ (by norm_num)) (Nat.mod_lt _ (by norm_num))]
  omega

/-- C8: on a big-endian host (`little = false`) all six conversion
functions are the identity; on a little-endian host they perform the
exact byte reversal (characterised arithmetically); and at every width
the round trip `fromBigEndian (toBigEndian x)` is the identity for every
representable value, on either host. -/
theorem c8_endian_roundtrip (little : Bool) (v16 v32 v64 : Nat)
    (h16 : v16 < 2 ^ 16) (h32 : v32 < 2 ^ 32) (h64 : v64 < 2 ^ 64) :
    betoh16 little (htobe16 little v16) = v16 ∧
    betoh32 little (htobe32 little v32) = v32 ∧
    betoh64 little (htobe64 little v64) = v64 ∧
    (little = false →
      htobe16 little v16 = v16 ∧ htobe32 little v32 = v32 ∧ htobe64 little v64 = v64 ∧
      betoh16 little v16 = v16 ∧ betoh32 little v32 = v32 ∧ betoh64 little v64 = v64) ∧
    (little = true →
      htobe16 little v16 = v16 % 2 ^ 8 * 2 ^ 8 + v16 / 2 ^ 8 ∧
      htobe32 little v32 =
        v32 % 2 ^ 8 * 2 ^ 24 + v32 / 2 ^ 8 % 2 ^ 8 * 2 ^ 16 +
          v32 / 2 ^ 16 % 2 ^ 8 * 2 ^ 8 + v32 / 2 ^ 24 ∧
      htobe64 little v64 =
        v64 % 2 ^ 8 * 2 ^ 56 + v64 / 2 ^ 8 % 2 ^ 8 * 2 ^ 48 +
          v64 / 2 ^ 16 % 2 ^ 8 * 2 ^ 40 + v64 / 2 ^ 24 % 2 ^ 8 * 2 ^ 32 +
          v64 / 2 ^ 32 % 2 ^ 8 * 2 ^ 24 + v64 / 2 ^ 40 % 2 ^ 8 * 2 ^ 16 +
          v64 / 2 ^ 48 % 2 ^ 8 * 2 ^ 8 + v64 / 2 ^ 56 ∧
      betoh16 little = htobe16 little ∧ betoh32 little = htobe32 little ∧
      betoh64 little = htobe64 little) := by
  cases little with
  | false =>
    refine ⟨rfl, rfl, rfl, ?_, ?_⟩
    · intro _
      exact ⟨rfl, rfl, rfl, rfl, rfl, rfl⟩
    · intro hc
      exact absurd hc (by decide)
  | true =>
    refine ⟨byteswap16_involutive v16 h16, byteswap32_involutive v32 h32,
      byteswap64_involutive v64 h64, ?_, ?_⟩
    · intro hc
      exact absurd hc (by decide)
    · intro _
      exact ⟨byteswap16_eq v16 h16, byteswap32_eq v32 h32, byteswap64_eq v64 h64,
        rfl, rfl, rfl⟩

/-- C8 witness at concrete values on both hosts: the round trip fixes
`0x1234`, `0x12345678`, `0x123456789ABCDEF0`, and the little-endian swap
of `0x12345678` is `0x78563412`. -/
theorem c8_endian_roundtrip_witness :
    betoh16 true (htobe16 true 0x1234) = 0x1234 ∧
    betoh32 true (htobe32 true 0x12345678) = 0x12345678 ∧
    betoh64 true (htobe64 true 0x123456789ABCDEF0) = 0x123456789ABCDEF0 ∧
    betoh32 false (htobe32 false 0x12345678) = 0x12345678 ∧
    htobe32 true 0x12345678 = 0x78563412 :=
  have ht := c8_endian_roundtrip true 0x1234 0x12345678 0x123456789ABCDEF0
    (by norm_num) (by norm_num) (by norm_num)
  have hf := c8_endian_roundtrip false 0x1234 0x12345678 0x123456789ABCDEF0
    (by norm_num) (by norm_num) (by norm_num)
  ⟨ht.1, ht.2.1, ht.2.2.1, hf.2.1, by decide⟩

/-! ### C7: display paths -/

lemma toLowerByte_idem (c : Nat) : toLowerByte (toLowerByte c) = toLowerByte c := by
  unfold toLowerByte
  split_ifs <;> omega

lemma normalizePath_idem (p : List Nat) : normalizePath (normalizePath p) = normalizePath p := by
  unfold normalizePath
  rw [List.map_map]
  apply List.map_congr_left
  intro c _
  simp only [Function.comp_apply]
  by_cases h92 : c = 92
  · simp [h92, toLowerByte]
  · rw [if_neg h92]
    have hlow : toLowerByte c ≠ 92 := by
      unfold toLowerByte
      split_ifs <;> omega
    rw [if_neg hlow, toLowerByte_idem]

lemma normalizePath_normalizeSlashes (p : List Nat) :
    normalizePath (normalizeSlashes p) = normalizePath p := by
  unfold normalizePath normalizeSlashes
  rw [List.map_map]
  apply List.map_congr_left
  intro c _
  simp only [Function.comp_apply]
  by_cases h92 : c = 92
  · simp [h92, toLowerByte]
  · rw [if_neg h92, if_neg h92]

lemma parseEntries_paths (d : List Nat) :
    ∀ (count pos i : Nat) (es : List FileEntry),
      parseEntries d pos i count = .ok es →
      ∀ e ∈ es, e.path = e.lowercasePath ∧ e.path = normalizePath e.path := by
  intro count
  induction count with
  | zero =>
    intro pos i es h e he
    simp only [parseEntries] at h
    cases h
    simp at he
  | succ n ih =>
    intro pos i es h e he
    simp only [parseEntries] at h
    split at h
    · cases h
    · split at h
      · cases h
      · split at h
        · cases h
        · rcases hrec : parseEntries d (pos + 8 +
              ((d.drop (pos + 8)).takeWhile (fun c => c ≠ 0)).length + 1) (i + 1) n with e' | es'
          · rw [hrec] at h; cases h
          · rw [hrec] at h
            simp only [Except.ok.injEq] at h
            subst h
            rw [List.mem_cons] at he
            rcases he with he | he
            · subst he
              exact ⟨rfl, (normalizePath_idem _).symm⟩
            · exact ih _ _ _ hrec e he

lemma resolveContents_length (disk : Disk) :
    ∀ (ps : List PendingFile) (cs : List (List Nat)),
      resolveContents disk ps = some cs → cs.length = ps.length := by
  intro ps
  induction ps with
  | nil =>
    intro cs h
    simp only [resolveContents] at h
    cases h
    rfl
  | cons p rest ih =>
    intro cs h
    simp only [resolveContents] at h
    rcases h1 : (if p.fromDisk then disk p.sourcePath else some p.data) with _ | c
    · rw [h1] at h; cases h
    · rw [h1] at h
      rcases h2 : resolveContents disk rest with _ | cs'
      · rw [h2] at h; cases h
      · rw [h2] at h
        simp only [Option.some.injEq] at h
        subst h
        simp [ih cs' h2]

lemma entriesOf_paths :
    ∀ (ps : List PendingFile) (cs : List (List Nat)) (pos : Nat),
      ps.length = cs.length →
      List.Forall₂ (fun (q : PendingFile) (e : FileEntry) =>
          e.path = q.archivePath ∧ e.lowercasePath = normalizePath q.archivePath)
        ps (entriesOf (ps.zip cs) pos) := by
  intro ps
  induction ps with
  | nil =>
    intro cs pos _
    exact List.Forall₂.nil
  | cons p rest ih =>
    intro cs pos hlen
    cases cs with
    | nil => simp at hlen
    | cons c cs' =>
      simp only [List.zip_cons_cons, entriesOf]
      exact List.Forall₂.cons ⟨rfl, rfl⟩ (ih cs' (pos + c.length) (by simpa using hlen))

/-- The archive for the C7 counterexample: a single entry whose stored
directory path is `"A"` (byte 65), with one data byte. -/
def c7data : List Nat :=
  [66, 73, 71, 70, 0, 0, 0, 27, 0, 0, 0, 1, 0, 0, 0, 0,
   0, 0, 0, 26, 0, 0, 0, 1, 65, 0, 120]

/-- The reader the parser builds from `c7data`: note the entry's `path`
field is the lowercased `[97]`, not the stored original-case `[65]`. -/
def c7reader : Reader :=
  { data := c7data,
    files := [{ path := [97], lowercasePath := [97], offset := 26, size := 1 }],
    lookup := [([97], 0)] }

/-- C7 counterexample: parsing an archive whose stored path is `"A"`
yields an entry whose `path` field is the lowercased `"a"`, not the
slash-normalized case-preserved `"A"`; `Reader::parse` assigns
`normalizePath` (which lowercases) to both path fields. -/
theorem c7_display_path_counterexample :
    Reader.parseBytes c7data = .ok c7reader ∧
    c7reader.files.map (fun e => e.path) = [[97]] ∧
    normalizeSlashes [65] = [65] ∧
    c7reader.files.map (fun e => e.path) ≠ [normalizeSlashes [65]] := by
  refine ⟨by decide, by decide, by decide, by decide⟩

/-- C7 amended: Writer-side entries preserve original case — `addFile`
records the slash-normalized case-preserved `archivePath` and `write`
copies it into each recorded entry's `path` (deriving `lowercasePath`
by lowercasing) — but Reader-side entries do not: `Reader::parse`
stores the lowercased slash-normalized path in both `path` and
`lowercasePath`. -/
theorem c7_display_paths_amended :
    (∀ (w : Writer) (data p : List Nat), (w.addFileMem data p).1 = none →
      ((w.addFileMem data p).2.pendingFiles.map (fun q => q.archivePath)) =
        (w.pendingFiles.map (fun q => q.archivePath)) ++ [normalizeSlashes p]) ∧
    (∀ (w : Writer) (disk : Disk) (src p : List Nat), (w.addFileDisk disk src p).1 = none →
      ((w.addFileDisk disk src p).2.pendingFiles.map (fun q => q.archivePath)) =
        (w.pendingFiles.map (fun q => q.archivePath)) ++ [normalizeSlashes p]) ∧
    (∀ (w : Writer) (disk : Disk) (bytes : List Nat) (w₂ : Writer),
      w.write disk = (.ok bytes, w₂) →
      List.Forall₂ (fun (q : PendingFile) (e : FileEntry) =>
          e.path = q.archivePath ∧ e.lowercasePath = normalizePath q.archivePath)
        w.pendingFiles w₂.entries) ∧
    (∀ (d : List Nat) (r : Reader), Reader.parseBytes d = .ok r →
      ∀ e ∈ r.files, e.path = e.lowercasePath ∧ e.path = normalizePath e.path) := by
  refine ⟨?_, ?_, ?_, ?_⟩
  · intro w data p h
    unfold Writer.addFileMem at h ⊢
    rcases hdup : w.hasDuplicate p with _ | _
    · simp [hdup]
    · simp [hdup] at h
  · intro w disk src p h
    unfold Writer.addFileDisk at h ⊢
    rcases hsrc : (disk src).isNone with _ | _
    · rcases hdup : w.hasDuplicate p with _ | _
      · simp [hsrc, hdup]
      · simp [hsrc, hdup] at h
    · simp [hsrc] at h
  · intro w disk bytes w₂ h
    unfold Writer.write at h
    split at h
    · next hemp =>
      simp only [Prod.mk.injEq] at h
      rw [← h.2]
      simp only [List.isEmpty_iff] at hemp
      rw [hemp]
      exact List.Forall₂.nil
    · rcases hrc : resolveContents disk w.pendingFiles with _ | cs
      · rw [hrc] at h
        simp at h
      · rw [hrc] at h
        simp only [Prod.mk.injEq] at h
        rw [← h.2]
        exact entriesOf_paths w.pendingFiles cs _
          (resolveContents_length disk _ _ hrc).symm
  · intro d r h e he
    obtain ⟨-, hpe, -⟩ := parseBytes_ok_inv d r h
    exact parseEntries_paths d _ _ _ _ hpe e he

/-- C7 amended, witnessed: adding `"A\\B"` from memory stores the
case-preserved `"A/B"`; writing records an entry with that display path
and lowercase key `"a/b"`; parsing `c7data` (stored path `"A"`) yields
an entry whose two path fields are both the lowercased `"a"`. -/
theorem c7_display_paths_amended_witness :
    ((({ pendingFiles := [], entries := [] } : Writer).addFileMem [104] [65, 92, 66]).2.pendingFiles.map
        (fun q => q.archivePath)) = [[65, 47, 66]] ∧
    (∀ e ∈ c7reader.files, e.path = e.lowercasePath ∧ e.path = normalizePath e.path) := by
  constructor
  · have h := c7_display_paths_amended.1 { pendingFiles := [], entries := [] } [104] [65, 92, 66]
      (by decide)
    rw [h]
    decide
  · exact c7_display_paths_amended.2.2.2 c7data c7reader (by decide)

/-! ### C1: round trip -/

/-- The directory entries `Reader::parse` reconstructs from an archive
that the writer laid out from `items` with data cursor starting at
`pos`: both path fields lowercased, offset and size as `uint32_t`. -/
def parsedEntriesOf : List (PendingFile × List Nat) → Nat → List FileEntry
  | [], _ => []
  | (p, c) :: rest, pos =>
    { path := normalizePath p.archivePath, lowercasePath := normalizePath p.archivePath,
      offset := pos % 2 ^ 32, size := c.length % 2 ^ 32 } :: parsedEntriesOf rest (pos + c.length)

/-- The pending entry the from-memory `addFile` records for a
(archivePath, bytes) pair. -/
def pairPending (pr : List Nat × List Nat) : PendingFile :=
  { archivePath := normalizeSlashes pr.1, sourcePath := [], data := pr.2, fromDisk := false }

lemma normalizeSlashes_length (p : List Nat) : (normalizeSlashes p).length = p.length := by
  unfold normalizeSlashes
  exact List.length_map _ _

lemma normalizeSlashes_nul (p : List Nat) (h : (0 : Nat) ∉ p) :
    (0 : Nat) ∉ normalizeSlashes p := by
  unfold normalizeSlashes
  intro hmem
  rcases List.mem_map.mp hmem with ⟨c, hc, he⟩
  by_cases h92 : c = 92
  · rw [if_pos h92] at he
    cases he
  · rw [if_neg h92] at he
    exact h (he ▸ hc)

lemma be32_length (v : Nat) : (be32 v).length = 4 := rfl

lemma headerBytes_length (total count : Nat) : (headerBytes total count).length = 16 := rfl

lemma dirBytes_length :
    ∀ (items : List (PendingFile × List Nat)) (pos : Nat),
      (dirBytes items pos).length = (items.map (fun it => dirEntrySize it.1)).sum := by
  intro items
  induction items with
  | nil => intro pos; rfl
  | cons it rest ih =>
    intro pos
    rcases it with ⟨p, c⟩
    simp only [dirBytes, List.map_cons, List.sum_cons, List.length_append, be32_length,
      List.length_singleton, ih, dirEntrySize]

lemma dataBytes_length :
    ∀ cs : List (List Nat), (dataBytes cs).length = (cs.map List.length).sum := by
  intro cs
  induction cs with
  | nil => rfl
  | cons c rest ih =>
    simp only [dataBytes, List.length_append, ih, List.map_cons, List.sum_cons]

lemma parsedEntriesOf_length :
    ∀ (items : List (PendingFile × List Nat)) (pos : Nat),
      (parsedEntriesOf items pos).length = items.length := by
  intro items
  induction items with
  | nil => intro pos; rfl
  | cons it rest ih =>
    intro pos
    rcases it with ⟨p, c⟩
    simp only [parsedEntriesOf, List.length_cons, ih]

lemma parsedEntriesOf_keys :
    ∀ (items : List (PendingFile × List Nat)) (pos : Nat),
      (parsedEntriesOf items pos).map (fun e => e.lowercasePath) =
        items.map (fun it => normalizePath it.1.archivePath) := by
  intro items
  induction items with
  | nil => intro pos; rfl
  | cons it rest ih =>
    intro pos
    rcases it with ⟨p, c⟩
    simp only [parsedEntriesOf, List.map_cons, ih]

lemma readBE32_drop (d : List Nat) (pos : Nat) : readBE32 d pos = readBE32 (d.drop pos) 0 := by
  unfold readBE32
  have h : ∀ k, (d.drop pos).getD k 0 = d.getD (pos + k) 0 := by
    intro k
    rw [List.getD_eq_getElem?_getD, List.getD_eq_getElem?_getD, List.getElem?_drop]
  rw [h 0, h 1, h 2, h 3]
  simp

lemma readBE32_be32 (v : Nat) (rest : List Nat) :
    readBE32 (be32 v ++ rest) 0 = v % 2 ^ 32 := by
  unfold be32 readBE32
  simp only [List.cons_append, List.nil_append, List.getD_cons_zero, List.getD_cons_succ]
  omega

lemma takeWhile_nul_path (path : List Nat) (tail : List Nat) (h : (0 : Nat) ∉ path) :
    (path ++ 0 :: tail).takeWhile (fun c => c ≠ 0) = path := by
  induction path with
  | nil => simp
  | cons a rest ih =>
    have ha : a ≠ 0 := fun he => h (he ▸ List.mem_cons_self a rest)
    simp only [List.cons_append]
    rw [List.takeWhile_cons_of_pos (by simpa using ha)]
    rw [ih (fun hm => h (List.mem_cons_of_mem a hm))]

lemma parseEntries_roundtrip (A : List Nat) (hA32 : A.length < 2 ^ 32) :
    ∀ (items : List (PendingFile × List Nat)) (pre post : List Nat) (i dpos : Nat),
      A = pre ++ dirBytes items dpos ++ post →
      dpos + (items.map (fun it => it.2.length)).sum ≤ A.length →
      (∀ it ∈ items, (0 : Nat) ∉ it.1.archivePath) →
      parseEntries A pre.length i items.length = .ok (parsedEntriesOf items dpos) := by
  intro items
  induction items with
  | nil => intro pre post i dpos hA hsum hnul; rfl
  | cons it rest ih =>
    rcases it with ⟨p, c⟩
    intro pre post i dpos hA hsum hnul
    simp only [List.map_cons, List.sum_cons] at hsum
    have hpathnul : (0 : Nat) ∉ p.archivePath := hnul (p, c) (List.mem_cons_self _ _)
    have hdrop : A.drop pre.length =
        be32 dpos ++ (be32 c.length ++ (p.archivePath ++
          (0 :: (dirBytes rest (dpos + c.length) ++ post)))) := by
      rw [hA, List.append_assoc, List.drop_left]
      simp [dirBytes, List.append_assoc]
    have hdlen := congrArg List.length hdrop
    rw [List.length_drop] at hdlen
    simp only [List.length_append, be32_length, List.length_cons] at hdlen
    have hplen : pre.length ≤ A.length := by
      rw [hA]
      simp only [List.length_append]
      omega
    have h8 : ¬(pre.length + 8 > A.length) := by omega
    have hoff : readBE32 A pre.length = dpos % 2 ^ 32 := by
      rw [readBE32_drop, hdrop, readBE32_be32]
    have hsize : readBE32 A (pre.length + 4) = c.length % 2 ^ 32 := by
      rw [readBE32_drop, ← List.drop_drop, hdrop]
      rw [show (be32 dpos ++ (be32 c.length ++ (p.archivePath ++
          (0 :: (dirBytes rest (dpos + c.length) ++ post))))).drop 4 =
        be32 c.length ++ (p.archivePath ++
          (0 :: (dirBytes rest (dpos + c.length) ++ post))) from by
        simp [be32]]
      rw [readBE32_be32]
    have hwrap : ¬((readBE32 A pre.length + readBE32 A (pre.length + 4)) % 2 ^ 32 >
        A.length) := by
      rw [hoff, hsize]
      omega
    have hdrop8 : A.drop (pre.length + 8) = p.archivePath ++
        (0 :: (dirBytes rest (dpos + c.length) ++ post)) := by
      rw [← List.drop_drop, hdrop]
      simp [be32]
    have htake : (A.drop (pre.length + 8)).takeWhile (fun b => b ≠ 0) = p.archivePath := by
      rw [hdrop8]
      exact takeWhile_nul_path _ _ hpathnul
    have hterm : ¬(pre.length + 8 + p.archivePath.length ≥ A.length) := by omega
    have hA2 : A = (pre ++ (be32 dpos ++ (be32 c.length ++ (p.archivePath ++ [0])))) ++
        dirBytes rest (dpos + c.length) ++ post := by
      rw [hA]
      simp [dirBytes, List.append_assoc]
    have hrec := ih (pre ++ (be32 dpos ++ (be32 c.length ++ (p.archivePath ++ [0]))))
      post (i + 1) (dpos + c.length) hA2 (by omega)
      (fun it hit => hnul it (List.mem_cons_of_mem _ hit))
    have hpre2 : (pre ++ (be32 dpos ++ (be32 c.length ++ (p.archivePath ++ [0])))).length =
        pre.length + 8 + p.archivePath.length + 1 := by
      simp only [List.length_append, be32_length, List.length_singleton]
      omega
    rw [hpre2] at hrec
    simp only [List.length_cons, parseEntries]
    rw [if_neg h8]
    rw [hoff, hsize]
    rw [if_neg (by rw [← hoff, ← hsize]; exact hwrap)]
    rw [htake]
    rw [if_neg hterm]
    rw [hrec]
    simp only [parsedEntriesOf]

lemma buildLookupAux_ok_of_nodup :
    ∀ (es : List FileEntry) (i : Nat) (acc : List (List Nat × Nat)),
      (es.map (fun e => e.lowercasePath)).Nodup →
      (∀ e ∈ es, ∀ kv ∈ acc, kv.1 ≠ e.lowercasePath) →
      buildLookupAux es i acc = .ok (acc ++ mkLookup es i) := by
  intro es
  induction es with
  | nil =>
    intro i acc _ _
    simp [buildLookupAux, mkLookup]
  | cons e rest ih =>
    intro i acc hnd hdisj
    simp only [List.map_cons, List.nodup_cons] at hnd
    have hany : acc.any (fun kv => kv.1 = e.lowercasePath) = false := by
      rw [List.any_eq_false]
      intro kv hkv
      simpa using hdisj e (List.mem_cons_self _ _) kv hkv
    simp only [buildLookupAux, hany]
    rw [if_neg (by simp)]
    rw [ih (i + 1) (acc ++ [(e.lowercasePath, i)]) hnd.2 ?_]
    · simp [mkLookup, List.append_assoc]
    · intro f hf kv hkv
      rcases List.mem_append.mp hkv with hkv | hkv
      · exact hdisj f (List.mem_cons_of_mem _ hf) kv hkv
      · rcases List.mem_singleton.mp hkv with rfl
        intro heq
        exact hnd.1 (List.mem_map.mpr ⟨f, hf, by simpa using heq.symm⟩)

lemma resolveContents_memPendings (disk : Disk) :
    ∀ pairs : List (List Nat × List Nat),
      resolveContents disk (pairs.map pairPending) = some (pairs.map (fun pr => pr.2)) := by
  intro pairs
  induction pairs with
  | nil => rfl
  | cons pr rest ih =>
    simp only [List.map_cons, resolveContents, pairPending, ih]
    rfl

lemma findFile_of_mem (r : Reader) (hlk : r.lookup = mkLookup r.files 0)
    (hnd : (r.files.map (fun e => e.lowercasePath)).Nodup)
    (e : FileEntry) (he : e ∈ r.files) (p : List Nat)
    (hp : normalizePath p = e.lowercasePath) :
    r.findFile p = some e := by
  obtain ⟨j, hfind, hget⟩ :=
    find_mkLookup_hit r.files [] e (normalizePath p) (by simpa using hnd) he hp.symm
  unfold Reader.findFile
  rw [hlk]
  have hz : (mkLookup r.files 0).find? (fun kv => kv.1 = normalizePath p) =
      some (normalizePath p, j) := hfind
  rw [hz]
  simpa using hget

lemma forall₂_mem_left {α β : Type} {R : α → β → Prop} :
    ∀ {l₁ : List α} {l₂ : List β}, List.Forall₂ R l₁ l₂ → ∀ a ∈ l₁, ∃ b ∈ l₂, R a b := by
  intro l₁ l₂ h
  induction h with
  | nil => intro a ha; simp at ha
  | cons hr _ ih =>
    intro a ha
    rcases List.mem_cons.mp ha with rfl | ha
    · exact ⟨_, List.mem_cons_self _ _, hr⟩
    · rcases ih a ha with ⟨b, hb, hrb⟩
      exact ⟨b, List.mem_cons_of_mem _ hb, hrb⟩

lemma forall₂_map_eq {α β : Type} {f : α → Nat} {g : β → Nat} :
    ∀ {l₁ : List α} {l₂ : List β},
      List.Forall₂ (fun a b => g b = f a) l₁ l₂ → l₂.map g = l₁.map f := by
  intro l₁ l₂ h
  induction h with
  | nil => rfl
  | cons hr _ ih => simp [ih, hr]

lemma getFileView_roundtrip (r : Reader) (hA32 : r.data.length < 2 ^ 32) :
    ∀ (items : List (PendingFile × List Nat)) (dpos : Nat),
      r.data.drop dpos = dataBytes (items.map (fun it => it.2)) →
      dpos + (items.map (fun it => it.2.length)).sum ≤ r.data.length →
      List.Forall₂ (fun (it : PendingFile × List Nat) (e : FileEntry) =>
          e.lowercasePath = normalizePath it.1.archivePath ∧
          e.size = it.2.length ∧
          r.getFileView e = it.2)
        items (parsedEntriesOf items dpos) := by
  intro items
  induction items with
  | nil =>
    intro dpos _ _
    exact List.Forall₂.nil
  | cons it rest ih =>
    rcases it with ⟨p, c⟩
    intro dpos hdrop hsum
    simp only [List.map_cons, List.sum_cons] at hsum
    simp only [List.map_cons, dataBytes] at hdrop
    have hdpos : dpos % 2 ^ 32 = dpos := Nat.mod_eq_of_lt (by omega)
    have hclen : c.length % 2 ^ 32 = c.length := Nat.mod_eq_of_lt (by omega)
    simp only [parsedEntriesOf]
    refine List.Forall₂.cons ⟨rfl, by simpa using hclen, ?_⟩ ?_
    · unfold Reader.getFileView
      simp only
      rw [hdpos, hclen]
      rw [if_neg (by omega)]
      rw [hdrop, List.take_left]
    · apply ih
      · rw [← List.drop_drop, hdrop, List.drop_left]
      · omega

lemma addAllMem_ok :
    ∀ (pairs : List (List Nat × List Nat)) (w : Writer),
      ((w.pendingFiles.map (fun q => normalizePath q.archivePath)) ++
        pairs.map (fun pr => normalizePath pr.1)).Nodup →
      w.addAllMem pairs =
        (none, { pendingFiles := w.pendingFiles ++ pairs.map pairPending,
                 entries := w.entries }) := by
  intro pairs
  induction pairs with
  | nil =>
    intro w _
    simp [Writer.addAllMem]
  | cons pr rest ih =>
    rcases pr with ⟨p, b⟩
    intro w hnd
    have hdisj := List.disjoint_of_nodup_append hnd
    have hdup : w.hasDuplicate p = false := by
      unfold Writer.hasDuplicate
      rw [List.any_eq_false]
      intro q hq
      simp only [decide_eq_true_eq]
      intro heq
      exact hdisj (List.mem_map.mpr ⟨q, hq, heq⟩)
        (by simp only [List.map_cons]; exact List.mem_cons_self _ _)
    have hstep : w.addFileMem b p =
        (none, { pendingFiles := w.pendingFiles ++ [pairPending (p, b)],
                 entries := w.entries }) := by
      unfold Writer.addFileMem
      rw [if_neg (by simp [hdup])]
      rfl
    simp only [Writer.addAllMem, hstep]
    rw [ih { pendingFiles := w.pendingFiles ++ [pairPending (p, b)], entries := w.entries } ?_]
    · simp [List.append_assoc]
    · simp only [List.map_append, List.map_cons, List.map_nil] at hnd ⊢
      rw [List.append_assoc]
      simp only [List.singleton_append, List.nil_append]
      have hkey : normalizePath (pairPending (p, b)).archivePath = normalizePath p := by
        simp [pairPending, normalizePath_normalizeSlashes]
      rw [hkey]
      exact hnd

/-- C1 amended: the round trip holds for pairs with nonempty contents
whose lowercase slash-normalized paths are pairwise distinct, whose
paths contain no NUL byte, with at most 1,000,000 entries and a total
archive size below `2 ^ 32` (the `uint32_t` offset/size fields and the
parser's file-count ceiling impose the last three conditions). -/
theorem c1_roundtrip_amended (pairs : List (List Nat × List Nat)) (disk : Disk)
    (hdist : (pairs.map (fun pr => normalizePath pr.1)).Nodup)
    (hnul : ∀ pr ∈ pairs, (0 : Nat) ∉ pr.1)
    (hnonempty : ∀ pr ∈ pairs, pr.2 ≠ [])
    (hcount : pairs.length ≤ 1000000)
    (htotal : 16 + (pairs.map (fun pr => 9 + pr.1.length)).sum +
        (pairs.map (fun pr => pr.2.length)).sum < 2 ^ 32) :
    ∃ (w : Writer) (A : List Nat) (r : Reader),
      Writer.addAllMem { pendingFiles := [], entries := [] } pairs = (none, w) ∧
      (w.write disk).1 = .ok A ∧
      Reader.parseBytes A = .ok r ∧
      r.files.map (fun e => e.size) = pairs.map (fun pr => pr.2.length) ∧
      r.fileCount = pairs.length ∧
      ∀ pr ∈ pairs, ∃ e, r.findFile pr.1 = some e ∧ r.extractToMemory e = some pr.2 := by
  have hadd : Writer.addAllMem { pendingFiles := [], entries := [] } pairs =
      (none, { pendingFiles := pairs.map pairPending, entries := [] }) := by
    have := addAllMem_ok pairs { pendingFiles := [], entries := [] } (by simpa using hdist)
    simpa using this
  by_cases hemp : pairs = []
  · subst hemp
    refine ⟨{ pendingFiles := [], entries := [] }, emptyArchiveBytes,
      { data := emptyArchiveBytes, files := [], lookup := [] },
      by simpa using hadd, rfl, by decide, rfl, rfl, by simp⟩
  · -- abbreviations
    have hpne : pairs.map pairPending ≠ [] := by simpa using hemp
    have hcs2 : (pairs.map (fun pr => (pairPending pr, pr.2))).map (fun it => it.2) =
        pairs.map (fun pr => pr.2) := by
      rw [List.map_map]
      rfl
    have hsizes2 : (pairs.map (fun pr => (pairPending pr, pr.2))).map
        (fun it => it.2.length) = pairs.map (fun pr => pr.2.length) := by
      rw [List.map_map]
      rfl
    have hzip : (pairs.map pairPending).zip (pairs.map (fun pr => pr.2)) =
        pairs.map (fun pr => (pairPending pr, pr.2)) := by
      rw [List.zip_map']
    have hdirsize : ((pairs.map pairPending).map dirEntrySize).sum =
        (pairs.map (fun pr => 9 + pr.1.length)).sum := by
      rw [List.map_map]
      congr 1
      apply List.map_congr_left
      intro pr _
      simp only [Function.comp_apply, dirEntrySize, pairPending, normalizeSlashes_length]
      omega
    have hdatasize : ((pairs.map (fun pr => pr.2)).map List.length).sum =
        (pairs.map (fun pr => pr.2.length)).sum := by
      rw [List.map_map]
      rfl
    set dirSize := ((pairs.map pairPending).map dirEntrySize).sum with hdsdef
    set dataSize := ((pairs.map (fun pr => pr.2)).map List.length).sum with hdatadef
    set total := headerSize + dirSize + dataSize with htotdef
    set items := pairs.map (fun pr => (pairPending pr, pr.2)) with hitemsdef
    set A := headerBytes total (pairs.map pairPending).length ++
      dirBytes items (headerSize + dirSize) ++ dataBytes (pairs.map (fun pr => pr.2))
      with hAdef
    have hwrite : (Writer.write { pendingFiles := pairs.map pairPending, entries := [] }
        disk).1 = .ok A := by
      have hres : resolveContents disk (pairs.map pairPending) =
          some (pairs.map (fun pr => pr.2)) := resolveContents_memPendings disk pairs
      have hie : (pairs.map pairPending).isEmpty = false := by
        rcases hp : pairs.map pairPending with _ | _
        · exact absurd hp hpne
        · rfl
      simp only [Writer.write, hie, Bool.false_eq_true, if_false, hres, hzip]
    have hdirlen : (dirBytes items (headerSize + dirSize)).length = dirSize := by
      rw [dirBytes_length, hdsdef, hitemsdef, List.map_map, List.map_map]
      rfl
    have hdatalen : (dataBytes (pairs.map (fun pr => pr.2))).length = dataSize := by
      rw [dataBytes_length, hdatadef]
    have hAlen : A.length = total := by
      rw [hAdef]
      simp only [List.length_append, headerBytes_length, hdirlen, hdatalen, htotdef]
      simp [headerSize]
    have htotal2 : total = 16 + (pairs.map (fun pr => 9 + pr.1.length)).sum +
        (pairs.map (fun pr => pr.2.length)).sum := by
      rw [htotdef, hdirsize, hdatasize]
      simp [headerSize]
    have hA32 : A.length < 2 ^ 32 := by
      rw [hAlen, htotal2]
      exact htotal
    have htake4 : A.take 4 = magicBytes := by
      rw [hAdef]
      simp [headerBytes, magicBytes, be32, List.cons_append]
    have hread8 : readBE32 A 8 = pairs.length := by
      rw [readBE32_drop, hAdef]
      have hd8 : (headerBytes total (pairs.map pairPending).length ++
          dirBytes items (headerSize + dirSize) ++
          dataBytes (pairs.map (fun pr => pr.2))).drop 8 =
          be32 (pairs.map pairPending).length ++
            ([0, 0, 0, 0] ++ (dirBytes items (headerSize + dirSize) ++
              dataBytes (pairs.map (fun pr => pr.2)))) := by
        simp [headerBytes, magicBytes, be32, List.cons_append, List.append_assoc]
      rw [hd8, readBE32_be32, List.length_map]
      exact Nat.mod_eq_of_lt (by omega)
    have hpe : parseEntries A 16 0 pairs.length =
        .ok (parsedEntriesOf items (headerSize + dirSize)) := by
      have h := parseEntries_roundtrip A hA32 items
        (headerBytes total (pairs.map pairPending).length)
        (dataBytes (pairs.map (fun pr => pr.2))) 0 (headerSize + dirSize)
        (by rw [hAdef]) ?_ ?_
      · rw [headerBytes_length] at h
        rw [hitemsdef, List.length_map] at h
        rw [← hitemsdef] at h
        exact h
      · rw [hsizes2]
        have hhs : headerSize = 16 := rfl
        omega
      · intro it hit
        rw [hitemsdef] at hit
        rcases List.mem_map.mp hit with ⟨pr, hpr, rfl⟩
        exact normalizeSlashes_nul _ (hnul pr hpr)
    have hkeys : (parsedEntriesOf items (headerSize + dirSize)).map
        (fun e => e.lowercasePath) = pairs.map (fun pr => normalizePath pr.1) := by
      rw [parsedEntriesOf_keys, hitemsdef, List.map_map]
      apply List.map_congr_left
      intro pr _
      simp only [Function.comp_apply, pairPending]
      exact normalizePath_normalizeSlashes pr.1
    have hnd : ((parsedEntriesOf items (headerSize + dirSize)).map
        (fun e => e.lowercasePath)).Nodup := by
      rw [hkeys]
      exact hdist
    have hlkOk : buildLookupAux (parsedEntriesOf items (headerSize + dirSize)) 0 [] =
        .ok (mkLookup (parsedEntriesOf items (headerSize + dirSize)) 0) := by
      have := buildLookupAux_ok_of_nodup (parsedEntriesOf items (headerSize + dirSize))
        0 [] hnd (by simp)
      simpa using this
    refine ⟨{ pendingFiles := pairs.map pairPending, entries := [] }, A,
      { data := A, files := parsedEntriesOf items (headerSize + dirSize),
        lookup := mkLookup (parsedEntriesOf items (headerSize + dirSize)) 0 },
      hadd, hwrite, ?_, ?_, ?_, ?_⟩
    · -- parse
      simp only [Reader.parseBytes, headerSize]
      rw [if_neg (by omega : ¬A.length < 16)]
      rw [if_neg (by rw [htake4]; simp : ¬A.take 4 ≠ magicBytes)]
      rw [hread8]
      rw [if_neg (by omega : ¬pairs.length > 1000000)]
      simp only [hpe, hlkOk]
      rfl
    · -- sizes in order
      have hforall := getFileView_roundtrip
        { data := A, files := parsedEntriesOf items (headerSize + dirSize),
          lookup := mkLookup (parsedEntriesOf items (headerSize + dirSize)) 0 }
        hA32 items (headerSize + dirSize) ?_ ?_
      · have himp : List.Forall₂ (fun (it : PendingFile × List Nat) (e : FileEntry) =>
            e.size = it.2.length) items (parsedEntriesOf items (headerSize + dirSize)) :=
          List.Forall₂.imp (fun a b hab => hab.2.1) hforall
        have := forall₂_map_eq himp
        rw [this, hitemsdef, hsizes2]
      · show A.drop (headerSize + dirSize) = dataBytes (items.map (fun it => it.2))
        rw [hcs2, hAdef]
        rw [List.drop_left' (by rw [List.length_append, headerBytes_length, hdirlen]; exact rfl)]
      · show headerSize + dirSize + (items.map (fun it => it.2.length)).sum ≤ A.length
        rw [hsizes2]
        have hhs : headerSize = 16 := rfl
        omega
    · -- count
      show (parsedEntriesOf items (headerSize + dirSize)).length = pairs.length
      rw [parsedEntriesOf_length, hitemsdef, List.length_map]
    · -- find and extract per pair
      intro pr hpr
      have hforall := getFileView_roundtrip
        { data := A, files := parsedEntriesOf items (headerSize + dirSize),
          lookup := mkLookup (parsedEntriesOf items (headerSize + dirSize)) 0 }
        hA32 items (headerSize + dirSize) ?_ ?_
      · have hmemitem : (pairPending pr, pr.2) ∈ items := by
          rw [hitemsdef]
          exact List.mem_map.mpr ⟨pr, hpr, rfl⟩
        obtain ⟨e, he, hkey, hsz, hview⟩ := forall₂_mem_left hforall _ hmemitem
        refine ⟨e, ?_, ?_⟩
        · apply findFile_of_mem _ rfl hnd e he pr.1
          rw [hkey]
          exact (normalizePath_normalizeSlashes pr.1).symm
        · unfold Reader.extractToMemory
          simp only [hview]
          rw [if_neg (by simpa using hnonempty pr hpr)]
      · show A.drop (headerSize + dirSize) = dataBytes (items.map (fun it => it.2))
        rw [hcs2, hAdef]
        rw [List.drop_left' (by rw [List.length_append, headerBytes_length, hdirlen]; exact rfl)]
      · show headerSize + dirSize + (items.map (fun it => it.2.length)).sum ≤ A.length
        rw [hsizes2]
        have hhs : headerSize = 16 := rfl
        omega

/-- The pair list for the C1 counterexample: one entry with empty
contents. -/
def c1cexPairs : List (List Nat × List Nat) := [([97], [])]

/-- The archive `write` emits for `c1cexPairs`. -/
def c1cexArchive : List Nat :=
  [66, 73, 71, 70, 0, 0, 0, 26, 0, 0, 0, 1, 0, 0, 0, 0,
   0, 0, 0, 26, 0, 0, 0, 0, 97, 0]

/-- The reader obtained by re-opening `c1cexArchive`. -/
def c1cexReader : Reader :=
  { data := c1cexArchive,
    files := [{ path := [97], lowercasePath := [97], offset := 26, size := 0 }],
    lookup := [([97], 0)] }

/-- C1 counterexample: for the pair `("a", [])` (a zero-length stored
file, which the claim's quantification admits) the write/open round
trip succeeds and `findFile` locates the entry, but `extractToMemory`
returns nothing instead of the original empty bytes, because an empty
view is treated as invalid bounds. -/
theorem c1_roundtrip_counterexample :
    Writer.addAllMem { pendingFiles := [], entries := [] } c1cexPairs =
      (none, { pendingFiles := [pairPending ([97], [])], entries := [] }) ∧
    (Writer.write { pendingFiles := [pairPending ([97], [])], entries := [] }
        (fun _ => none)).1 = .ok c1cexArchive ∧
    Reader.parseBytes c1cexArchive = .ok c1cexReader ∧
    c1cexReader.findFile [97] =
      some { path := [97], lowercasePath := [97], offset := 26, size := 0 } ∧
    c1cexReader.extractToMemory
      { path := [97], lowercasePath := [97], offset := 26, size := 0 } = none := by
  refine ⟨by decide, by decide, by decide, by decide, by decide⟩

/-- C1 amended, witnessed at the single pair `("a", "h")` with an
always-empty disk. -/
theorem c1_roundtrip_amended_witness :
    (([([97], [104])].map (fun pr => normalizePath pr.1)).Nodup) ∧
    (∀ pr ∈ [([97], [104])], ((0 : Nat) ∉ pr.1) ∧ pr.2 ≠ []) ∧
    (∃ (w : Writer) (A : List Nat) (r : Reader),
      Writer.addAllMem { pendingFiles := [], entries := [] } [([97], [104])] = (none, w) ∧
      (w.write (fun _ => none)).1 = .ok A ∧
      Reader.parseBytes A = .ok r ∧
      r.files.map (fun e => e.size) = [([97], [104])].map (fun pr => pr.2.length) ∧
      r.fileCount = [([97], [104])].length ∧
      ∀ pr ∈ [([97], [104])], ∃ e, r.findFile pr.1 = some e ∧
        r.extractToMemory e = some pr.2) :=
  ⟨by decide, by decide,
    c1_roundtrip_amended [([97], [104])] (fun _ => none) (by decide) (by decide)
      (by decide) (by decide) (by decide)⟩

end big
